import Mathlib

/-!
Input field accessors of `public/service/config_input.go`.

A shallow embedding of `inputConfFromAny`, `ParsedConfig.FieldInput`,
`ParsedConfig.FieldInputList` and `ParsedConfig.FieldInputMap`.

* Go's multiple return values `(x, err)` are kept as pairs; a nil pointer, nil
  slice, nil map or nil error is `none`.
* The two collaborators with effects, `(*yaml.Node).Decode` and the manager's
  `NewInput`, are parameters.  Every call to either of them is appended to an
  explicit trace that is threaded through the accessors, and the answer of
  `NewInput` may depend on the whole trace so far (a factory with state).
* `range` over a Go map visits the entries in an order chosen by the runtime;
  that choice is the parameter `MapRange`.
-/

namespace Benthos

/-! ## Errors -/

/-- Go `error` values: `plain` is an error without a cause (the result of
`fmt.Errorf` without `%w`, or an error of a collaborator), `wrapped` is the
result of `fmt.Errorf` with one `%w` verb, which keeps the cause. -/
inductive GoError where
  | plain (msg : String)
  | wrapped (msg : String) (cause : GoError)
  deriving DecidableEq, Repr

/-- The method `Error()` of an error: its message. -/
def GoError.Error : GoError → String
  | .plain msg => msg
  | .wrapped msg _ => msg

/-- The method `Unwrap()` as seen by `errors.Unwrap`: the wrapped cause. -/
def GoError.Unwrap : GoError → Option GoError
  | .plain _ => none
  | .wrapped _ cause => some cause

/-- Models `fmt.Errorf(format)` where the format has no `%w`; `msg` is the
formatted text. -/
def Errorf (msg : String) : GoError := .plain msg

/-- Models `fmt.Errorf("<lead>%w", err)`: the message is the lead text followed
by the message of `err`, and `err` is kept as the cause. -/
def ErrorfW (lead : String) (err : GoError) : GoError :=
  .wrapped (lead ++ err.Error) err

/-- Models `strconv.Itoa` on a non-negative index (and `%v` of such an `int`):
the decimal string. -/
def Itoa (i : Nat) : String := Nat.repr i

/-- Models `strings.Join(path, ".")`. -/
def joinPath (path : List String) : String := String.intercalate "." path

/-! ## Generic values -/

/-- The dynamic value held by an `any` of the parsed configuration tree.
`other` is any value that is none of the four kinds the accessors look for; it
carries the name `%T` prints for it (`string`, `int`, `<nil>`, ...). -/
inductive AnyVal (Node Config : Type) where
  | yamlNode (n : Node)
  | inputConfig (c : Config)
  | slice (xs : List (AnyVal Node Config))
  | mapping (kvs : List (String × AnyVal Node Config))
  | other (goType : String)

/-- The text `%T` prints for a value. -/
def AnyVal.typeName {Node Config : Type} : AnyVal Node Config → String
  | .yamlNode _ => "*yaml.Node"
  | .inputConfig _ => "input.Config"
  | .slice _ => "[]interface \x7b\x7d"
  | .mapping _ => "map[string]interface \x7b\x7d"
  | .other goType => goType

/-! ## Collaborators and trace -/

/-- One call to a collaborator. -/
inductive Event (Node Config : Type) where
  | decode (n : Node)
  | newInput (scope : List String) (conf : Config)
  deriving DecidableEq, Repr

/-- The manager `p.mgr`: the path it is narrowed to, and the behaviour of its
factory, which given the calls made so far, the path of the manager asked and
the configuration answers `(input, err)`. -/
structure Manager (Node Config Streamed : Type) where
  path : List String
  factory : List (Event Node Config) → List String → Config → Streamed × Option GoError

/-- Modelled from the spec: `IntoPath` of the manager, which is not part of the
source file.  It narrows the manager to a sub-path, the segments accumulating
on the path it already has. -/
def Manager.IntoPath {Node Config Streamed : Type} (m : Manager Node Config Streamed)
    (segments : List String) : Manager Node Config Streamed :=
  { m with path := m.path ++ segments }

/-- The call `mgr.NewInput(conf)`: asks the factory and records the call. -/
def Manager.NewInput {Node Config Streamed : Type} (m : Manager Node Config Streamed)
    (conf : Config) (tr : List (Event Node Config)) :
    (Streamed × Option GoError) × List (Event Node Config) :=
  (m.factory tr m.path conf, tr ++ [Event.newInput m.path conf])

/-- The wrapper `OwnedInput{iproc}`. -/
structure OwnedInput (Streamed : Type) where
  i : Streamed
  deriving DecidableEq, Repr

/-- The part of `ParsedConfig` the accessors use: `field` answers
`p.field(path...)` with `(value, exists)`, `mgr` is `p.mgr`. -/
structure ParsedConfig (Node Config Streamed : Type) where
  field : List String → AnyVal Node Config × Bool
  mgr : Manager Node Config Streamed

/-- The order in which `range` visits the entries of a Go map: some
rearrangement of the entries. -/
structure MapRange (Node Config : Type) where
  order : List (String × AnyVal Node Config) → List (String × AnyVal Node Config)
  perm : ∀ kvs, (order kvs).Perm kvs

section Accessors

variable {Node Config Streamed : Type} [Inhabited Config]

/-- `inputConfFromAny`, which returns `(conf, err)`.  `dec n` is the outcome of
`n.Decode(&conf)` on a zero `conf`: the configuration left in `conf` and the
error. -/
def inputConfFromAny (dec : Node → Config × Option GoError) (v : AnyVal Node Config)
    (tr : List (Event Node Config)) : (Config × Option GoError) × List (Event Node Config) :=
  match v with
  | .yamlNode t => (dec t, tr ++ [Event.decode t])
  | .inputConfig t => ((t, none), tr)
  | _ => ((default, some (Errorf ("unexpected value, expected object, got " ++ v.typeName))), tr)

/-- `FieldInput`. -/
def FieldInput (dec : Node → Config × Option GoError) (p : ParsedConfig Node Config Streamed)
    (path : List String) (tr : List (Event Node Config)) :
    (Option (OwnedInput Streamed) × Option GoError) × List (Event Node Config) :=
  let (field, found) := p.field path
  if !found then
    ((none, some (Errorf ("field \x27" ++ joinPath path ++ "\x27 was not found in the config"))), tr)
  else
    let ((conf, err), tr1) := inputConfFromAny dec field tr
    match err with
    | some e => ((none, some e), tr1)
    | none =>
      let ((iproc, err), tr2) := (p.mgr.IntoPath path).NewInput conf tr1
      match err with
      | some e => ((none, some e), tr2)
      | none => ((some ⟨iproc⟩, none), tr2)

/-- The first loop of `FieldInputList`, from index `i` on with `configs`
collected so far: `error` is the early return out of the accessor. -/
def decodeLoop (dec : Node → Config × Option GoError) :
    List (AnyVal Node Config) → Nat → List Config → List (Event Node Config) →
    Except GoError (List Config) × List (Event Node Config)
  | [], _, configs, tr => (.ok configs, tr)
  | iConf :: rest, i, configs, tr =>
    let ((conf, err), tr1) := inputConfFromAny dec iConf tr
    match err with
    | some e => (.error (ErrorfW ("value " ++ Itoa i ++ ": ") e), tr1)
    | none => decodeLoop dec rest (i + 1) (configs ++ [conf]) tr1

/-- The second loop of `FieldInputList`, from index `i` on; `ins` is the slice
of pointers being filled, `none` a nil pointer. -/
def newInputLoop (tmpMgr : Manager Node Config Streamed) :
    List Config → Nat → List (Option (OwnedInput Streamed)) → List (Event Node Config) →
    Except GoError (List (Option (OwnedInput Streamed))) × List (Event Node Config)
  | [], _, ins, tr => (.ok ins, tr)
  | c :: rest, i, ins, tr =>
    let ((iproc, err), tr1) := (tmpMgr.IntoPath [Itoa i]).NewInput c tr
    match err with
    | some e => (.error (ErrorfW ("input " ++ Itoa i ++ ": ") e), tr1)
    | none => newInputLoop tmpMgr rest (i + 1) (ins.set i (some ⟨iproc⟩)) tr1

/-- `FieldInputList`. -/
def FieldInputList (dec : Node → Config × Option GoError)
    (p : ParsedConfig Node Config Streamed) (path : List String) (tr : List (Event Node Config)) :
    (Option (List (Option (OwnedInput Streamed))) × Option GoError) × List (Event Node Config) :=
  let (field, found) := p.field path
  if !found then
    ((none, some (Errorf ("field \x27" ++ joinPath path ++ "\x27 was not found in the config"))), tr)
  else
    match field with
    | .slice fieldArray =>
      match decodeLoop dec fieldArray 0 [] tr with
      | (.error e, tr1) => ((none, some e), tr1)
      | (.ok configs, tr1) =>
        let tmpMgr := p.mgr.IntoPath path
        match newInputLoop tmpMgr configs 0 (List.replicate configs.length none) tr1 with
        | (.error e, tr2) => ((none, some e), tr2)
        | (.ok ins, tr2) => ((some ins, none), tr2)
    | _ =>
      ((none, some (Errorf ("unexpected value, expected array, got " ++ field.typeName))), tr)

/-- The assignment `ins[k] = v` on a Go map kept as a list of entries: an entry
already under `k` is replaced. -/
def mapSet {α : Type} (ins : List (String × α)) (k : String) (v : α) : List (String × α) :=
  ins.filter (fun e => e.1 != k) ++ [(k, v)]

/-- The read `ins[k]` with the comma-ok form. -/
def mapGet {α : Type} (ins : List (String × α)) (k : String) : Option α :=
  (ins.find? (fun e => e.1 == k)).map Prod.snd

/-- The loop of `FieldInputMap` over the entries in the order `range` visits
them; `ins` is the map being filled. -/
def mapLoop (dec : Node → Config × Option GoError) (tmpMgr : Manager Node Config Streamed) :
    List (String × AnyVal Node Config) → List (String × OwnedInput Streamed) →
    List (Event Node Config) →
    Except GoError (List (String × OwnedInput Streamed)) × List (Event Node Config)
  | [], ins, tr => (.ok ins, tr)
  | (k, v) :: rest, ins, tr =>
    let ((conf, err), tr1) := inputConfFromAny dec v tr
    match err with
    | some e => (.error (ErrorfW ("value " ++ k ++ ": ") e), tr1)
    | none =>
      let ((iproc, err), tr2) := (tmpMgr.IntoPath [k]).NewInput conf tr1
      match err with
      | some e => (.error (ErrorfW ("input " ++ k ++ ": ") e), tr2)
      | none => mapLoop dec tmpMgr rest (mapSet ins k ⟨iproc⟩) tr2

/-- `FieldInputMap`; `rng` is the order in which `range fieldMap` visits the
entries. -/
def FieldInputMap (dec : Node → Config × Option GoError) (rng : MapRange Node Config)
    (p : ParsedConfig Node Config Streamed) (path : List String) (tr : List (Event Node Config)) :
    (Option (List (String × OwnedInput Streamed)) × Option GoError) × List (Event Node Config) :=
  let (field, found) := p.field path
  if !found then
    ((none, some (Errorf ("field \x27" ++ joinPath path ++ "\x27 was not found in the config"))), tr)
  else
    match field with
    | .mapping fieldMap =>
      let tmpMgr := p.mgr.IntoPath path
      match mapLoop dec tmpMgr (rng.order fieldMap) [] tr with
      | (.error e, tr1) => ((none, some e), tr1)
      | (.ok ins, tr1) => ((some ins, none), tr1)
    | _ =>
      ((none, some (Errorf ("unexpected value, expected object, got " ++ field.typeName))), tr)

/-! ## Vocabulary of the statements -/

/-- The calls `inputConfFromAny` makes on a value: one decode for a document
node, none otherwise. -/
def decodeEvents : AnyVal Node Config → List (Event Node Config)
  | .yamlNode n => [Event.decode n]
  | _ => []

/-- The configuration `inputConfFromAny` returns for a value. -/
def decoded (dec : Node → Config × Option GoError) (v : AnyVal Node Config) : Config :=
  (inputConfFromAny dec v []).1.1

/-- The error `inputConfFromAny` returns for a value, `none` when it decodes. -/
def decodeError (dec : Node → Config × Option GoError) (v : AnyVal Node Config) :
    Option GoError :=
  (inputConfFromAny dec v []).1.2

/-- The instantiate calls of a trace, in order: the manager path asked and the
configuration passed. -/
def instantiations : List (Event Node Config) → List (List String × Config)
  | [] => []
  | Event.decode _ :: tr => instantiations tr
  | Event.newInput scope conf :: tr => (scope, conf) :: instantiations tr

/-- The instantiate calls of the second loop of `FieldInputList` for the
configurations `confs` at indices `i`, `i + 1`, ... under the manager path
`scope`. -/
def listInputEvents (scope : List String) : Nat → List Config → List (Event Node Config)
  | _, [] => []
  | i, c :: confs => Event.newInput (scope ++ [Itoa i]) c :: listInputEvents scope (i + 1) confs

/-- The calls of one round of the loop of `FieldInputMap` on an entry that
decodes: the decode, if any, then the instantiate call under the key. -/
def entryEvents (dec : Node → Config × Option GoError) (scope : List String)
    (e : String × AnyVal Node Config) : List (Event Node Config) :=
  decodeEvents e.2 ++ [Event.newInput (scope ++ [e.1]) (decoded dec e.2)]

/-- The trace at the moment `FieldInputList`, started on trace `tr` with the
sequence `xs` whose elements all decode, asks for the component of index `j`:
all the decodes, then the instantiate calls of the indices below `j`. -/
def listTraceBefore (dec : Node → Config × Option GoError) (scope : List String)
    (tr : List (Event Node Config)) (xs : List (AnyVal Node Config)) (j : Nat) :
    List (Event Node Config) :=
  tr ++ xs.flatMap decodeEvents ++ listInputEvents scope 0 ((xs.take j).map (decoded dec))

/-- The trace at the moment the loop of `FieldInputMap`, started on trace `tr`,
asks for the component of entry `e` after full rounds on the entries `front`:
the calls of those rounds, then the decode of `e`. -/
def mapTraceBefore (dec : Node → Config × Option GoError) (scope : List String)
    (tr : List (Event Node Config)) (front : List (String × AnyVal Node Config))
    (e : String × AnyVal Node Config) : List (Event Node Config) :=
  tr ++ front.flatMap (entryEvents dec scope) ++ decodeEvents e.2

/-- One step of reading a decimal numeral from the left: the value so far
times ten plus the value of the digit `c`. -/
def digitValue (acc : Nat) (c : Char) : Nat := acc * 10 + (c.toNat - 48)

/-- A round of the loop of `FieldInputMap` on the entry `e` can fail for a
factory that does not look at the trace: the value does not decode, or the
manager `tmpMgr` narrowed to the key answers an error for the decoded
configuration. -/
def canFail (dec : Node → Config × Option GoError) (tmpMgr : Manager Node Config Streamed)
    (e : String × AnyVal Node Config) : Prop :=
  decodeError dec e.2 ≠ none ∨
    ((tmpMgr.IntoPath [e.1]).NewInput (decoded dec e.2) []).1.2 ≠ none

instance (dec : Node → Config × Option GoError) (tmpMgr : Manager Node Config Streamed)
    (e : String × AnyVal Node Config) : Decidable (canFail dec tmpMgr e) := by
  unfold canFail; infer_instance

/-- Two values returned by `FieldInputMap` are the same: the same error, and
either two nil maps or two maps that hold the same entry under every key. -/
def sameResult {α : Type} (r₁ r₂ : Option (List (String × α)) × Option GoError) : Prop :=
  r₁.2 = r₂.2 ∧
    match r₁.1, r₂.1 with
    | some m₁, some m₂ => ∀ k, mapGet m₁ k = mapGet m₂ k
    | none, none => True
    | _, _ => False

/-- The entry of a mapping under key `kc.1` whose value is the typed
configuration `kc.2`. -/
def typedEntry (kc : String × Config) : String × AnyVal Node Config :=
  (kc.1, AnyVal.inputConfig kc.2)

/-- The instantiate call for the typed configuration `kc.2` on the manager path
`scope` narrowed to the key `kc.1`. -/
def typedCall (scope : List String) (kc : String × Config) : Event Node Config :=
  Event.newInput (scope ++ [kc.1]) kc.2

/-- Text `sub` occurs in text `s`. -/
def occursIn (sub s : String) : Prop := sub.data <:+: s.data

instance (sub s : String) : Decidable (occursIn sub s) := by
  unfold occursIn; infer_instance

end Accessors

/-! ## Sample inputs -/

/-- A decoder of sample nodes: node `0` does not decode, any other node `n`
decodes to configuration `n`. -/
def sampleDecode (n : Nat) : Nat × Option GoError :=
  if n = 0 then (0, some (GoError.plain "bad node")) else (n, none)

/-- A factory that answers the component `conf + 100` for every request. -/
def sampleManager : Manager Nat Nat Nat :=
  { path := ["root"], factory := fun _ _ conf => (conf + 100, none) }

/-- A factory that fails for configuration `7` and otherwise answers as
`sampleManager`. -/
def failingManager : Manager Nat Nat Nat :=
  { path := ["root"],
    factory := fun _ _ conf => if conf = 7 then (0, some (GoError.plain "boom")) else (conf + 100, none) }

/-- A sample tree: `"one"` and `"seven"` document nodes, `"typed"` a typed configuration,
`"list"` a sequence whose element 1 does not decode, `"good"` a sequence that
decodes, `"map"` a mapping whose value at `"b"` does not decode, `"inputs"` a
mapping that decodes, `"bar"` a string. -/
def sampleField : List String → AnyVal Nat Nat × Bool
  | ["one"] => (.yamlNode 5, true)
  | ["seven"] => (.yamlNode 7, true)
  | ["typed"] => (.inputConfig 9, true)
  | ["list"] => (.slice [.yamlNode 3, .yamlNode 0, .yamlNode 4], true)
  | ["good"] => (.slice [.yamlNode 3, .inputConfig 8], true)
  | ["map"] => (.mapping [("a", .yamlNode 7), ("b", .yamlNode 0)], true)
  | ["inputs"] => (.mapping [("a", .yamlNode 3), ("b", .inputConfig 8)], true)
  | ["bar"] => (.other "string", true)
  | _ => (.other "<nil>", false)

/-- The sample tree with the factory that never fails. -/
def sampleConfig : ParsedConfig Nat Nat Nat := { field := sampleField, mgr := sampleManager }

/-- The sample tree with the factory that fails on configuration `7`. -/
def failingConfig : ParsedConfig Nat Nat Nat := { field := sampleField, mgr := failingManager }

/-- The iteration that visits the entries in the order they are listed. -/
def listedRange : MapRange Nat Nat := { order := id, perm := fun _ => List.Perm.refl _ }

/-- The iteration that visits the entries in the opposite order. -/
def reversedRange : MapRange Nat Nat :=
  { order := List.reverse, perm := fun kvs => List.reverse_perm kvs }

/-- A tree in which every path resolves to a sequence of three document nodes
that all decode, with the factory that fails on configuration `7`, the
configuration of element 1. -/
def failingListConfig : ParsedConfig Nat Nat Nat :=
  { field := fun _ => (.slice [.yamlNode 3, .yamlNode 7, .yamlNode 4], true),
    mgr := failingManager }

/-- A tree in which every path resolves to a mapping of two document nodes that
both decode, with the factory that fails on configuration `7`, the
configuration of the value at `b`. -/
def failingMapConfig : ParsedConfig Nat Nat Nat :=
  { field := fun _ => (.mapping [("a", .yamlNode 3), ("b", .yamlNode 7)], true),
    mgr := failingManager }

/-- A tree in which every path resolves to the sequence of the typed
configurations `8` and `9`, with the factory that never fails. -/
def typedListConfig : ParsedConfig Nat Nat Nat :=
  { field := fun _ => (.slice [.inputConfig 8, .inputConfig 9], true), mgr := sampleManager }

/-- A tree in which every path resolves to the mapping of `a` to the typed
configuration `8` and of `b` to the typed configuration `9`, with the factory
that never fails. -/
def typedMapConfig : ParsedConfig Nat Nat Nat :=
  { field := fun _ => (.mapping [("a", .inputConfig 8), ("b", .inputConfig 9)], true),
    mgr := sampleManager }

/-- A tree in which every path resolves to the sequence of the typed
configurations `8`, `7` and `9`, with the factory that fails on `7`. -/
def typedFailingListConfig : ParsedConfig Nat Nat Nat :=
  { field := fun _ => (.slice [.inputConfig 8, .inputConfig 7, .inputConfig 9], true),
    mgr := failingManager }

/-! ## Traces -/

section Traces

variable {Node Config : Type}

theorem instantiations_append (t u : List (Event Node Config)) :
    instantiations (t ++ u) = instantiations t ++ instantiations u := by
  induction t with
  | nil => rfl
  | cons ev t ih => cases ev <;> simp [instantiations, ih]

theorem instantiations_decodeEvents (v : AnyVal Node Config) :
    instantiations (decodeEvents v) = [] := by
  cases v <;> rfl

theorem instantiations_flatMap_decodeEvents (xs : List (AnyVal Node Config)) :
    instantiations (xs.flatMap decodeEvents) = [] := by
  induction xs with
  | nil => rfl
  | cons v xs ih =>
    rw [List.flatMap_cons, instantiations_append, instantiations_decodeEvents, ih]
    rfl

end Traces

/-! ## The decoder and the first loop of the list accessor -/

section Decoder

variable {Node Config : Type} [Inhabited Config]

theorem inputConfFromAny_fst (dec : Node → Config × Option GoError) (v : AnyVal Node Config)
    (tr : List (Event Node Config)) :
    (inputConfFromAny dec v tr).1 = (decoded dec v, decodeError dec v) := by
  cases v <;> rfl

theorem inputConfFromAny_snd (dec : Node → Config × Option GoError) (v : AnyVal Node Config)
    (tr : List (Event Node Config)) :
    (inputConfFromAny dec v tr).2 = tr ++ decodeEvents v := by
  cases v <;> simp [inputConfFromAny, decodeEvents]

theorem inputConfFromAny_eq (dec : Node → Config × Option GoError) (v : AnyVal Node Config)
    (tr : List (Event Node Config)) :
    inputConfFromAny dec v tr = ((decoded dec v, decodeError dec v), tr ++ decodeEvents v) := by
  rw [← inputConfFromAny_fst dec v tr, ← inputConfFromAny_snd dec v tr]

theorem decodeLoop_ok (dec : Node → Config × Option GoError) (xs : List (AnyVal Node Config))
    (h : ∀ v ∈ xs, decodeError dec v = none) (i : Nat) (configs : List Config)
    (tr : List (Event Node Config)) :
    decodeLoop dec xs i configs tr =
      (.ok (configs ++ xs.map (decoded dec)), tr ++ xs.flatMap decodeEvents) := by
  induction xs generalizing i configs tr with
  | nil => simp [decodeLoop]
  | cons v xs ih =>
    have hv := h v (List.mem_cons_self _ _)
    have hxs : ∀ u ∈ xs, decodeError dec u = none :=
      fun u hu => h u (List.mem_cons_of_mem _ hu)
    rw [decodeLoop, inputConfFromAny_eq, hv]
    simp only []
    rw [ih hxs]
    simp [List.flatMap_cons]

theorem decodeLoop_error (dec : Node → Config × Option GoError)
    (front : List (AnyVal Node Config)) (v : AnyVal Node Config) (back : List (AnyVal Node Config))
    (e : GoError) (hfront : ∀ u ∈ front, decodeError dec u = none)
    (hv : decodeError dec v = some e) (i : Nat) (configs : List Config)
    (tr : List (Event Node Config)) :
    decodeLoop dec (front ++ v :: back) i configs tr =
      (.error (ErrorfW ("value " ++ Itoa (i + front.length) ++ ": ") e),
        tr ++ front.flatMap decodeEvents ++ decodeEvents v) := by
  induction front generalizing i configs tr with
  | nil =>
    rw [List.nil_append, decodeLoop, inputConfFromAny_eq, hv]
    simp
  | cons u front ih =>
    have hu := hfront u (List.mem_cons_self _ _)
    have hrest : ∀ w ∈ front, decodeError dec w = none :=
      fun w hw => hfront w (List.mem_cons_of_mem _ hw)
    rw [List.cons_append, decodeLoop, inputConfFromAny_eq, hu]
    simp only []
    rw [ih hrest]
    simp [List.flatMap_cons, Nat.add_comm, Nat.add_left_comm]

end Decoder

/-! ## The second loop of the list accessor -/

section InputLoop

variable {Node Config Streamed : Type}

theorem newInputLoop_ok (m : Manager Node Config Streamed) (cs : List Config) (i : Nat)
    (ins : List (Option (OwnedInput Streamed))) (tr : List (Event Node Config))
    (h : ∀ j c, cs[j]? = some c →
      (m.factory (tr ++ listInputEvents m.path i (cs.take j)) (m.path ++ [Itoa (i + j)]) c).2
        = none) :
    ∃ out, newInputLoop m cs i ins tr = (.ok out, tr ++ listInputEvents m.path i cs) ∧
      out.length = ins.length ∧
      (∀ k, k < i → out[k]? = ins[k]?) ∧
      (∀ j c, cs[j]? = some c → i + j < ins.length →
        out[i + j]? = some (some ⟨(m.factory (tr ++ listInputEvents m.path i (cs.take j))
          (m.path ++ [Itoa (i + j)]) c).1⟩)) := by
  induction cs generalizing i ins tr with
  | nil =>
    refine ⟨ins, ?_, rfl, fun _ _ => rfl, ?_⟩
    · simp [newInputLoop, listInputEvents]
    · intro j c hc; simp at hc
  | cons c rest ih =>
    have h0 := h 0 c (by simp)
    simp only [List.take_zero, listInputEvents, List.append_nil, Nat.add_zero] at h0
    have hrest : ∀ j c', rest[j]? = some c' →
        (m.factory ((tr ++ [Event.newInput (m.path ++ [Itoa i]) c]) ++
          listInputEvents m.path (i + 1) (rest.take j)) (m.path ++ [Itoa (i + 1 + j)]) c').2
          = none := by
      intro j c' hj
      have := h (j + 1) c' (by simpa using hj)
      simpa [listInputEvents, Nat.add_assoc, Nat.add_comm 1 j] using this
    obtain ⟨out, hrun, hlen, hlow, hget⟩ :=
      ih (i + 1) (ins.set i (some ⟨(m.factory tr (m.path ++ [Itoa i]) c).1⟩))
        (tr ++ [Event.newInput (m.path ++ [Itoa i]) c]) hrest
    refine ⟨out, ?_, ?_, ?_, ?_⟩
    · rw [newInputLoop]
      simp only [Manager.NewInput, Manager.IntoPath, h0]
      rw [hrun]
      simp [listInputEvents]
    · simpa using hlen
    · intro k hk
      rw [hlow k (by omega), List.getElem?_set]
      simp [Nat.ne_of_gt hk]
    · intro j c' hj hlt
      cases j with
      | zero =>
        simp only [List.getElem?_cons_zero, Option.some.injEq] at hj
        subst hj
        simp only [Nat.add_zero, List.take_zero, listInputEvents, List.append_nil]
        rw [hlow i (by omega), List.getElem?_set]
        simp only [Nat.add_zero] at hlt
        simp [hlt]
      | succ j =>
        have := hget j c' (by simpa using hj) (by simp; omega)
        simpa [listInputEvents, Nat.add_assoc, Nat.add_comm 1 j] using this

end InputLoop

/-! ## Positions in a sequence -/

section Positions

variable {α : Type}

theorem split_at_index (xs : List α) (i : Nat) (v : α) (h : xs[i]? = some v) :
    ∃ front back, xs = front ++ v :: back ∧ front.length = i ∧
      ∀ u ∈ front, ∃ j, j < i ∧ xs[j]? = some u := by
  induction xs generalizing i with
  | nil => simp at h
  | cons x xs ih =>
    cases i with
    | zero =>
      simp only [List.getElem?_cons_zero, Option.some.injEq] at h
      exact ⟨[], xs, by simp [h], rfl, by simp⟩
    | succ i =>
      obtain ⟨front, back, hxs, hlen, hmem⟩ := ih i (by simpa using h)
      refine ⟨x :: front, back, by simp [hxs], by simp [hlen], ?_⟩
      intro u hu
      rcases List.mem_cons.1 hu with rfl | hu
      · exact ⟨0, Nat.succ_pos _, by simp⟩
      · obtain ⟨j, hj, hget⟩ := hmem u hu
        exact ⟨j + 1, by omega, by simpa using hget⟩

theorem exists_first (P : α → Prop) (xs : List α) (h : ∃ v ∈ xs, P v) :
    ∃ front v back, xs = front ++ v :: back ∧ P v ∧ ∀ u ∈ front, ¬ P u := by
  induction xs with
  | nil => simp at h
  | cons x xs ih =>
    by_cases hx : P x
    · exact ⟨[], x, xs, rfl, hx, by simp⟩
    · obtain ⟨v, hv, hP⟩ := h
      have hvx : v ∈ xs := by
        rcases List.mem_cons.1 hv with rfl | hv
        · exact absurd hP hx
        · exact hv
      obtain ⟨front, w, back, hxs, hw, hfront⟩ := ih ⟨v, hvx, hP⟩
      refine ⟨x :: front, w, back, by simp [hxs], hw, ?_⟩
      intro u hu
      rcases List.mem_cons.1 hu with rfl | hu
      · exact hx
      · exact hfront u hu

end Positions

/-! ## Decimal strings -/

section Decimal

theorem digitChar_value (m : Nat) (h : m < 10) : (Nat.digitChar m).toNat - 48 = m := by
  interval_cases m <;> rfl

theorem digitChar_ne_colon (m : Nat) (h : m < 10) : Nat.digitChar m ≠ ':' := by
  interval_cases m <;> decide

theorem foldl_toDigitsCore (fuel n : Nat) (ds : List Char) (h : n < fuel) :
    (Nat.toDigitsCore 10 fuel n ds).foldl digitValue 0 = ds.foldl digitValue n := by
  induction fuel generalizing n ds with
  | zero => omega
  | succ fuel ih =>
    rw [Nat.toDigitsCore]
    have hd := digitChar_value (n % 10) (Nat.mod_lt _ (by decide))
    by_cases h0 : n / 10 = 0
    · simp only [h0, if_true, List.foldl_cons, digitValue, hd]
      congr 1
      omega
    · simp only [h0, if_false]
      rw [ih (n / 10) _ (by omega)]
      simp only [List.foldl_cons, digitValue, hd]
      congr 1
      omega

theorem toDigitsCore_no_colon (fuel n : Nat) (ds : List Char) (hds : ':' ∉ ds) :
    ':' ∉ Nat.toDigitsCore 10 fuel n ds := by
  induction fuel generalizing n ds with
  | zero => simpa [Nat.toDigitsCore] using hds
  | succ fuel ih =>
    rw [Nat.toDigitsCore]
    have hd := digitChar_ne_colon (n % 10) (Nat.mod_lt _ (by decide))
    have hcons : ':' ∉ Nat.digitChar (n % 10) :: ds := by
      simp only [List.mem_cons, not_or]
      exact ⟨fun h => hd h.symm, hds⟩
    by_cases h0 : n / 10 = 0
    · simpa only [h0, if_true] using hcons
    · simpa only [h0, if_false] using ih (n / 10) _ hcons

theorem Itoa_value (i : Nat) : (Itoa i).data.foldl digitValue 0 = i := by
  have := foldl_toDigitsCore (i + 1) i [] (Nat.lt_succ_self i)
  simpa [Itoa, Nat.repr, Nat.toDigits, List.asString] using this

theorem Itoa_injective (i j : Nat) (h : Itoa i = Itoa j) : i = j := by
  rw [← Itoa_value i, ← Itoa_value j, h]

theorem Itoa_no_colon (i : Nat) : ':' ∉ (Itoa i).data := by
  have := toDigitsCore_no_colon (i + 1) i [] (by simp)
  simpa [Itoa, Nat.repr, Nat.toDigits, List.asString] using this

theorem colon_split_unique (a b r₁ r₂ : List Char) (ha : ':' ∉ a) (hb : ':' ∉ b)
    (h : a ++ ':' :: r₁ = b ++ ':' :: r₂) : a = b := by
  induction a generalizing b with
  | nil =>
    cases b with
    | nil => rfl
    | cons c b =>
      simp only [List.nil_append, List.cons_append, List.cons.injEq] at h
      exact absurd (List.mem_cons.2 (Or.inl h.1)) hb
  | cons x a ih =>
    cases b with
    | nil =>
      simp only [List.nil_append, List.cons_append, List.cons.injEq] at h
      exact absurd (List.mem_cons.2 (Or.inl h.1.symm)) ha
    | cons c b =>
      simp only [List.cons_append, List.cons.injEq] at h
      simp only [List.mem_cons, not_or] at ha hb
      rw [h.1, ih b ha.2 hb.2 h.2]

theorem value_index_unique (i j : Nat) (c₁ c₂ : String)
    (h : "value " ++ Itoa i ++ ": " ++ c₁ = "value " ++ Itoa j ++ ": " ++ c₂) : i = j := by
  have hdata := congrArg String.data h
  simp only [String.data_append, List.append_assoc] at hdata
  have hrest := List.append_cancel_left hdata
  exact Itoa_injective i j (String.ext
    (colon_split_unique _ _ _ _ (Itoa_no_colon i) (Itoa_no_colon j) hrest))

end Decimal

/-! ## The list accessor -/

section ListAccessor

variable {Node Config Streamed : Type} [Inhabited Config]

theorem FieldInputList_of_decodeLoop_error (dec : Node → Config × Option GoError)
    (p : ParsedConfig Node Config Streamed) (path : List String) (tr : List (Event Node Config))
    (xs : List (AnyVal Node Config)) (e : GoError) (tr1 : List (Event Node Config))
    (hfield : p.field path = (.slice xs, true))
    (hloop : decodeLoop dec xs 0 [] tr = (.error e, tr1)) :
    FieldInputList dec p path tr = ((none, some e), tr1) := by
  simp [FieldInputList, hfield, hloop]

/-- C1: when the path resolves to a sequence and `i` is the least index whose
element fails to decode, with decode error `e`, `FieldInputList` returns a nil
slice and the error built by `fmt.Errorf("value %v: %w", i, e)`: its message is
`"value <i>: "` followed by the message of `e`, its wrapped cause is `e`, and
the message reads `value <j>: ...` for no index `j` other than `i`.  The
manager and its factory are arbitrary. -/
theorem FieldInputList_decode_error (dec : Node → Config × Option GoError)
    (p : ParsedConfig Node Config Streamed) (path : List String) (tr : List (Event Node Config))
    (xs : List (AnyVal Node Config)) (i : Nat) (v : AnyVal Node Config) (e : GoError)
    (hfield : p.field path = (.slice xs, true))
    (hi : xs[i]? = some v) (hv : decodeError dec v = some e)
    (hleast : ∀ j u, j < i → xs[j]? = some u → decodeError dec u = none) :
    ∃ err, (FieldInputList dec p path tr).1 = (none, some err) ∧
      err.Error = "value " ++ Itoa i ++ ": " ++ e.Error ∧ err.Unwrap = some e ∧
      ∀ j cause, err.Error = "value " ++ Itoa j ++ ": " ++ cause → j = i := by
  obtain ⟨front, back, hxs, hlen, hmem⟩ := split_at_index xs i v hi
  have hfront : ∀ u ∈ front, decodeError dec u = none := by
    intro u hu
    obtain ⟨j, hj, hget⟩ := hmem u hu
    exact hleast j u hj hget
  have hloop := decodeLoop_error dec front v back e hfront hv 0 [] tr
  rw [← hxs, hlen, Nat.zero_add] at hloop
  refine ⟨ErrorfW ("value " ++ Itoa i ++ ": ") e, ?_, rfl, rfl, ?_⟩
  · rw [FieldInputList_of_decodeLoop_error dec p path tr xs _ _ hfield hloop]
  · intro j cause hj
    exact (value_index_unique i j e.Error cause hj).symm

/-- C2: when the path resolves to a sequence in which some element fails to
decode, the instantiate calls recorded after `FieldInputList` are those
recorded before it: the manager is asked for no component. -/
theorem FieldInputList_decode_error_no_instantiation (dec : Node → Config × Option GoError)
    (p : ParsedConfig Node Config Streamed) (path : List String) (tr : List (Event Node Config))
    (xs : List (AnyVal Node Config))
    (hfield : p.field path = (.slice xs, true))
    (hfail : ∃ v ∈ xs, decodeError dec v ≠ none) :
    instantiations (FieldInputList dec p path tr).2 = instantiations tr := by
  obtain ⟨front, v, back, hxs, hv, hfront⟩ :=
    exists_first (fun v => decodeError dec v ≠ none) xs hfail
  obtain ⟨e, he⟩ := Option.ne_none_iff_exists'.1 hv
  have hfront' : ∀ u ∈ front, decodeError dec u = none :=
    fun u hu => not_not.1 (hfront u hu)
  have hloop := decodeLoop_error dec front v back e hfront' he 0 [] tr
  rw [← hxs] at hloop
  rw [FieldInputList_of_decodeLoop_error dec p path tr xs _ _ hfield hloop]
  simp [instantiations_append, instantiations_flatMap_decodeEvents, instantiations_decodeEvents]

/-- C3: when the path resolves to a sequence of `n` elements, every element
decodes, and every instantiation the accessor asks for succeeds, then
`FieldInputList` returns no error and a slice of exactly `n` non-nil owned
inputs; the one at index `j` wraps the input answered by the manager narrowed
to the path and then to the decimal string of `j`, asked with the decoded
configuration of element `j`. -/
theorem FieldInputList_ok (dec : Node → Config × Option GoError)
    (p : ParsedConfig Node Config Streamed) (path : List String) (tr : List (Event Node Config))
    (xs : List (AnyVal Node Config))
    (hfield : p.field path = (.slice xs, true))
    (hdec : ∀ v ∈ xs, decodeError dec v = none)
    (hnew : ∀ j v, xs[j]? = some v →
      (((p.mgr.IntoPath path).IntoPath [Itoa j]).NewInput (decoded dec v)
        (listTraceBefore dec (p.mgr.IntoPath path).path tr xs j)).1.2 = none) :
    ∃ ins, (FieldInputList dec p path tr).1 = (some ins, none) ∧
      ins.length = xs.length ∧
      ∀ j v, xs[j]? = some v →
        ins[j]? = some (some (OwnedInput.mk
          (((p.mgr.IntoPath path).IntoPath [Itoa j]).NewInput (decoded dec v)
            (listTraceBefore dec (p.mgr.IntoPath path).path tr xs j)).1.1)) := by
  have hloop := decodeLoop_ok dec xs hdec 0 [] tr
  rw [List.nil_append] at hloop
  have hnew' : ∀ j c, (xs.map (decoded dec))[j]? = some c →
      ((p.mgr.IntoPath path).factory ((tr ++ xs.flatMap decodeEvents) ++
        listInputEvents (p.mgr.IntoPath path).path 0 ((xs.map (decoded dec)).take j))
        ((p.mgr.IntoPath path).path ++ [Itoa (0 + j)]) c).2 = none := by
    intro j c hc
    rw [List.getElem?_map] at hc
    obtain ⟨v, hv, rfl⟩ := Option.map_eq_some'.1 hc
    have := hnew j v hv
    simpa [Manager.NewInput, Manager.IntoPath, listTraceBefore, List.map_take] using this
  obtain ⟨out, hrun, hlen, -, hget⟩ :=
    newInputLoop_ok (p.mgr.IntoPath path) (xs.map (decoded dec)) 0
      (List.replicate (xs.map (decoded dec)).length none) (tr ++ xs.flatMap decodeEvents) hnew'
  simp only [List.length_map] at hrun
  refine ⟨out, ?_, by simpa using hlen, ?_⟩
  · simp [FieldInputList, hfield, hloop, hrun]
  · intro j v hv
    obtain ⟨hj, -⟩ := List.getElem?_eq_some.1 hv
    have := hget j (decoded dec v) (by simp [List.getElem?_map, hv]) (by simpa using hj)
    simpa [Manager.NewInput, Manager.IntoPath, listTraceBefore, List.map_take] using this

/-- Witness of C1 on the sample sequence `"list"`, whose element 1 is the first
that does not decode. -/
theorem FieldInputList_decode_error_witness :
    ∃ err, (FieldInputList sampleDecode sampleConfig ["list"] []).1 = (none, some err) ∧
      err.Error = "value " ++ Itoa 1 ++ ": " ++ (GoError.plain "bad node").Error ∧
      err.Unwrap = some (GoError.plain "bad node") ∧
      ∀ j cause, err.Error = "value " ++ Itoa j ++ ": " ++ cause → j = 1 :=
  FieldInputList_decode_error sampleDecode sampleConfig ["list"] []
    [.yamlNode 3, .yamlNode 0, .yamlNode 4] 1 (.yamlNode 0) (GoError.plain "bad node")
    rfl rfl rfl
    (by
      intro j u hj hu
      obtain rfl : j = 0 := by omega
      simp only [List.getElem?_cons_zero, Option.some.injEq] at hu
      subst hu
      rfl)

/-- Witness of C2 on the sample sequence `"list"`: three elements, element 1
does not decode, nothing is instantiated. -/
theorem FieldInputList_decode_error_no_instantiation_witness :
    instantiations (FieldInputList sampleDecode sampleConfig ["list"] []).2 =
      instantiations ([] : List (Event Nat Nat)) :=
  FieldInputList_decode_error_no_instantiation sampleDecode sampleConfig ["list"] []
    [.yamlNode 3, .yamlNode 0, .yamlNode 4] rfl
    ⟨.yamlNode 0, by simp, by decide⟩

/-- Witness of C3 on the sample sequence `"good"` of two elements. -/
theorem FieldInputList_ok_witness :
    ∃ ins, (FieldInputList sampleDecode sampleConfig ["good"] []).1 = (some ins, none) ∧
      ins.length = [AnyVal.yamlNode 3, AnyVal.inputConfig (8 : Nat)].length ∧
      ∀ j v, [AnyVal.yamlNode 3, AnyVal.inputConfig (8 : Nat)][j]? = some v →
        ins[j]? = some (some (OwnedInput.mk
          (((sampleConfig.mgr.IntoPath ["good"]).IntoPath [Itoa j]).NewInput
            (decoded sampleDecode v)
            (listTraceBefore sampleDecode (sampleConfig.mgr.IntoPath ["good"]).path []
              [AnyVal.yamlNode 3, AnyVal.inputConfig (8 : Nat)] j)).1.1)) :=
  FieldInputList_ok sampleDecode sampleConfig ["good"] []
    [.yamlNode 3, .inputConfig 8] rfl
    (by
      intro v hv
      simp only [List.mem_cons, List.mem_singleton, List.not_mem_nil, or_false] at hv
      rcases hv with rfl | rfl <;> rfl)
    (fun _ _ _ => rfl)

end ListAccessor

/-! ## Resolution and shape failures -/

section Resolution

variable {Node Config Streamed : Type} [Inhabited Config]

/-- C4: when the resolver reports the path as not found, `FieldInput`,
`FieldInputList` and `FieldInputMap` each return nil and the error with the
message `field '<p>' was not found in the config`, `<p>` being the segments
joined by a dot, and leave the trace as it was: nothing is decoded and nothing
is instantiated. -/
theorem accessors_not_found (dec : Node → Config × Option GoError) (rng : MapRange Node Config)
    (p : ParsedConfig Node Config Streamed) (path : List String) (tr : List (Event Node Config))
    (hfield : (p.field path).2 = false) :
    FieldInput dec p path tr =
      ((none, some (GoError.plain
        ("field \x27" ++ joinPath path ++ "\x27 was not found in the config"))), tr) ∧
    FieldInputList dec p path tr =
      ((none, some (GoError.plain
        ("field \x27" ++ joinPath path ++ "\x27 was not found in the config"))), tr) ∧
    FieldInputMap dec rng p path tr =
      ((none, some (GoError.plain
        ("field \x27" ++ joinPath path ++ "\x27 was not found in the config"))), tr) := by
  rcases hp : p.field path with ⟨v, b⟩
  rw [hp] at hfield
  simp only at hfield
  subst hfield
  simp [FieldInput, FieldInputList, FieldInputMap, hp, Errorf]

/-- Witness of C4: the path `foo`, absent from the sample tree. -/
theorem accessors_not_found_witness :
    FieldInput sampleDecode sampleConfig ["foo"] [] =
      ((none, some (GoError.plain "field \x27foo\x27 was not found in the config")), []) ∧
    FieldInputList sampleDecode sampleConfig ["foo"] [] =
      ((none, some (GoError.plain "field \x27foo\x27 was not found in the config")), []) ∧
    FieldInputMap sampleDecode listedRange sampleConfig ["foo"] [] =
      ((none, some (GoError.plain "field \x27foo\x27 was not found in the config")), []) :=
  accessors_not_found sampleDecode listedRange sampleConfig ["foo"] [] rfl

/-- C5: when the path resolves to a value that is not a sequence,
`FieldInputList` returns nil and the error `unexpected value, expected array,
got <kind>`; when it resolves to a value that is not a mapping, `FieldInputMap`
returns nil and the error `unexpected value, expected object, got <kind>`;
`<kind>` is what `%T` prints for the value, and the trace is left as it was. -/
theorem accessors_wrong_shape (dec : Node → Config × Option GoError) (rng : MapRange Node Config)
    (p : ParsedConfig Node Config Streamed) (path : List String) (tr : List (Event Node Config))
    (v : AnyVal Node Config) (hfield : p.field path = (v, true)) :
    ((∀ xs, v ≠ .slice xs) →
      FieldInputList dec p path tr =
        ((none, some (GoError.plain ("unexpected value, expected array, got " ++ v.typeName))),
          tr)) ∧
    ((∀ kvs, v ≠ .mapping kvs) →
      FieldInputMap dec rng p path tr =
        ((none, some (GoError.plain ("unexpected value, expected object, got " ++ v.typeName))),
          tr)) := by
  constructor
  · intro hv
    cases v with
    | slice xs => exact absurd rfl (hv xs)
    | _ => simp [FieldInputList, hfield, Errorf]
  · intro hv
    cases v with
    | mapping kvs => exact absurd rfl (hv kvs)
    | _ => simp [FieldInputMap, hfield, Errorf]

/-- Witness of C5: the string at `bar` read through the list accessor and
through the map accessor. -/
theorem accessors_wrong_shape_witness :
    FieldInputList sampleDecode sampleConfig ["bar"] [] =
      ((none, some (GoError.plain "unexpected value, expected array, got string")), []) ∧
    FieldInputMap sampleDecode listedRange sampleConfig ["bar"] [] =
      ((none, some (GoError.plain "unexpected value, expected object, got string")), []) :=
  ⟨(accessors_wrong_shape sampleDecode listedRange sampleConfig ["bar"] [] (.other "string")
      rfl).1 (fun _ h => AnyVal.noConfusion h),
   (accessors_wrong_shape sampleDecode listedRange sampleConfig ["bar"] [] (.other "string")
      rfl).2 (fun _ h => AnyVal.noConfusion h)⟩

end Resolution

/-! ## Typed configurations and the shape of the results -/

section Typed

variable {Node Config Streamed : Type} [Inhabited Config]

theorem decodeLoop_typed (dec : Node → Config × Option GoError) (cs : List Config) (i : Nat)
    (configs : List Config) (tr : List (Event Node Config)) :
    decodeLoop dec (cs.map AnyVal.inputConfig) i configs tr = (.ok (configs ++ cs), tr) := by
  induction cs generalizing i configs with
  | nil => simp [decodeLoop]
  | cons c cs ih => simp [decodeLoop, inputConfFromAny, ih]

theorem mapLoop_typed (dec dec' : Node → Config × Option GoError)
    (m : Manager Node Config Streamed) (ord : List (String × AnyVal Node Config))
    (h : ∀ e ∈ ord, ∃ c, e.2 = AnyVal.inputConfig c)
    (ins : List (String × OwnedInput Streamed)) (tr : List (Event Node Config)) :
    mapLoop dec m ord ins tr = mapLoop dec' m ord ins tr := by
  induction ord generalizing ins tr with
  | nil => rfl
  | cons x rest ih =>
    rcases x with ⟨k, v⟩
    obtain ⟨c, hc⟩ := h (k, v) (List.mem_cons_self _ _)
    simp only at hc
    subst hc
    have hrest : ∀ e ∈ rest, ∃ c, e.2 = AnyVal.inputConfig c :=
      fun e he => h e (List.mem_cons_of_mem _ he)
    rw [mapLoop, mapLoop]
    simp only [inputConfFromAny, Manager.NewInput]
    generalize (m.IntoPath [k]).factory tr (m.IntoPath [k]).path c = r
    rcases r with ⟨iproc, _ | e⟩
    · exact ih hrest _ _
    · rfl

/-- C9: each of `FieldInput`, `FieldInputList` and `FieldInputMap` returns
either a non-nil result with a nil error, or a nil result with a non-nil
error. -/
theorem accessors_result_xor_error (dec : Node → Config × Option GoError)
    (rng : MapRange Node Config) (p : ParsedConfig Node Config Streamed) (path : List String)
    (tr : List (Event Node Config)) :
    ((∃ o, (FieldInput dec p path tr).1 = (some o, none)) ∨
      (∃ e, (FieldInput dec p path tr).1 = (none, some e))) ∧
    ((∃ ins, (FieldInputList dec p path tr).1 = (some ins, none)) ∨
      (∃ e, (FieldInputList dec p path tr).1 = (none, some e))) ∧
    ((∃ ins, (FieldInputMap dec rng p path tr).1 = (some ins, none)) ∨
      (∃ e, (FieldInputMap dec rng p path tr).1 = (none, some e))) := by
  rcases hp : p.field path with ⟨v, b⟩
  refine ⟨?_, ?_, ?_⟩
  · cases b
    · simp [FieldInput, hp]
    · simp only [FieldInput, hp, inputConfFromAny_eq, Manager.NewInput]
      cases decodeError dec v with
      | some e => simp
      | none =>
        generalize (p.mgr.IntoPath path).factory (tr ++ decodeEvents v)
          (p.mgr.IntoPath path).path (decoded dec v) = r
        rcases r with ⟨iproc, _ | e⟩ <;> simp
  · cases b
    · simp [FieldInputList, hp]
    · cases v with
      | slice xs =>
        simp only [FieldInputList, hp]
        generalize decodeLoop dec xs 0 [] tr = r
        rcases r with ⟨_ | configs, tr1⟩
        · simp
        · simp only [Bool.not_true, Bool.false_eq_true, if_false]
          generalize newInputLoop (p.mgr.IntoPath path) configs 0
            (List.replicate configs.length none) tr1 = r2
          rcases r2 with ⟨_ | ins, tr2⟩ <;> simp
      | _ => simp [FieldInputList, hp]
  · cases b
    · simp [FieldInputMap, hp]
    · cases v with
      | mapping kvs =>
        simp only [FieldInputMap, hp]
        generalize mapLoop dec (p.mgr.IntoPath path) (rng.order kvs) [] tr = r
        rcases r with ⟨_ | ins, tr1⟩ <;> simp
      | _ => simp [FieldInputMap, hp]

end Typed

/-! ## The scalar accessor -/

section Scalar

variable {Node Config Streamed : Type} [Inhabited Config]

theorem FieldInput_decoded (dec : Node → Config × Option GoError)
    (p : ParsedConfig Node Config Streamed) (path : List String) (tr : List (Event Node Config))
    (v : AnyVal Node Config) (hfield : p.field path = (v, true))
    (hdec : decodeError dec v = none) :
    FieldInput dec p path tr =
      match (p.mgr.IntoPath path).NewInput (decoded dec v) (tr ++ decodeEvents v) with
      | ((_, some e), tr2) => ((none, some e), tr2)
      | ((iproc, none), tr2) => ((some ⟨iproc⟩, none), tr2) := by
  simp only [FieldInput, hfield, inputConfFromAny_eq, hdec, Manager.NewInput]
  generalize (p.mgr.IntoPath path).factory (tr ++ decodeEvents v)
    (p.mgr.IntoPath path).path (decoded dec v) = r
  rcases r with ⟨iproc, _ | e⟩ <;> rfl

/-- C10: when the path is found and its value decodes, `FieldInput` records
exactly one instantiate call, on the manager narrowed to the path and with the
decoded configuration, and if the factory answers an error there, `FieldInput`
returns nil and that very error; when the path is not found or its value does
not decode, `FieldInput` records no instantiate call. -/
theorem FieldInput_one_attempt (dec : Node → Config × Option GoError)
    (p : ParsedConfig Node Config Streamed) (path : List String) (tr : List (Event Node Config)) :
    (∀ v, p.field path = (v, true) → decodeError dec v = none →
      instantiations (FieldInput dec p path tr).2 =
        instantiations tr ++ [((p.mgr.IntoPath path).path, decoded dec v)] ∧
      ∀ e, ((p.mgr.IntoPath path).NewInput (decoded dec v) (tr ++ decodeEvents v)).1.2 = some e →
        (FieldInput dec p path tr).1 = (none, some e)) ∧
    (∀ v, p.field path = (v, true) → decodeError dec v ≠ none →
      instantiations (FieldInput dec p path tr).2 = instantiations tr) ∧
    ((p.field path).2 = false →
      instantiations (FieldInput dec p path tr).2 = instantiations tr) := by
  refine ⟨?_, ?_, ?_⟩
  · intro v hfield hdec
    rw [FieldInput_decoded dec p path tr v hfield hdec]
    simp only [Manager.NewInput]
    generalize (p.mgr.IntoPath path).factory (tr ++ decodeEvents v)
      (p.mgr.IntoPath path).path (decoded dec v) = r
    rcases r with ⟨iproc, _ | e⟩ <;>
      simp [instantiations_append, instantiations_decodeEvents, instantiations]
  · intro v hfield hdec
    obtain ⟨e, he⟩ := Option.ne_none_iff_exists'.1 hdec
    simp [FieldInput, hfield, inputConfFromAny_eq, he, instantiations_append,
      instantiations_decodeEvents]
  · intro hfield
    rcases hp : p.field path with ⟨v, b⟩
    rw [hp] at hfield
    simp only at hfield
    subst hfield
    simp [FieldInput, hp]

/-- Witness of C10: the node at `seven` of the sample tree decodes to
configuration `7`, on which the factory fails with `boom`; one instantiate call
is recorded and `FieldInput` returns the error of the factory itself. -/
theorem FieldInput_one_attempt_witness :
    instantiations (FieldInput sampleDecode failingConfig ["seven"] []).2 =
      instantiations ([] : List (Event Nat Nat)) ++
        [((failingConfig.mgr.IntoPath ["seven"]).path, decoded sampleDecode (.yamlNode 7))] ∧
    (FieldInput sampleDecode failingConfig ["seven"] []).1 = (none, some (GoError.plain "boom")) :=
  ⟨((FieldInput_one_attempt sampleDecode failingConfig ["seven"] []).1
      (.yamlNode 7) rfl rfl).1,
   ((FieldInput_one_attempt sampleDecode failingConfig ["seven"] []).1
      (.yamlNode 7) rfl rfl).2 (GoError.plain "boom") rfl⟩

end Scalar

/-! ## Go maps as lists of entries -/

section Maps

variable {α : Type}

theorem mapGet_mapSet_self (ins : List (String × α)) (k : String) (v : α) :
    mapGet (mapSet ins k v) k = some v := by
  have hnone : (ins.filter (fun e => e.1 != k)).find? (fun e => e.1 == k) = none := by
    rw [List.find?_eq_none]
    intro x hx
    have := (List.mem_filter.1 hx).2
    simpa using this
  simp [mapGet, mapSet, List.find?_append, hnone]

theorem find_mapSet_ne (ins : List (String × α)) (k k' : String) (v : α) (h : k' ≠ k) :
    (mapSet ins k v).find? (fun e => e.1 == k') = ins.find? (fun e => e.1 == k') := by
  have hk : (k == k') = false := by simpa using Ne.symm h
  induction ins with
  | nil => simp [mapSet, hk]
  | cons x ins ih =>
    rcases x with ⟨a, b⟩
    simp only [mapSet] at ih ⊢
    by_cases ha : a = k
    · subst ha
      simpa [List.filter_cons, List.find?_cons, hk] using ih
    · by_cases ha' : a = k'
      · subst ha'
        simp [List.filter_cons, List.find?_cons, ha]
      · have hne : (a == k') = false := by simpa using ha'
        simpa [List.filter_cons, List.find?_cons, ha, hne] using ih

theorem mapGet_mapSet_ne (ins : List (String × α)) (k k' : String) (v : α) (h : k' ≠ k) :
    mapGet (mapSet ins k v) k' = mapGet ins k' := by
  simp only [mapGet, find_mapSet_ne ins k k' v h]

theorem mem_keys_mapSet (ins : List (String × α)) (k k' : String) (v : α) :
    k' ∈ (mapSet ins k v).map Prod.fst ↔ k' ∈ ins.map Prod.fst ∨ k' = k := by
  simp only [mapSet, List.map_append, List.mem_append, List.mem_map, List.mem_filter,
    List.map_cons, List.map_nil, List.mem_singleton]
  constructor
  · rintro (⟨x, ⟨hx, -⟩, rfl⟩ | h)
    · exact Or.inl ⟨x, hx, rfl⟩
    · exact Or.inr h
  · rintro (⟨x, hx, rfl⟩ | h)
    · by_cases hk : x.1 = k
      · exact Or.inr hk
      · exact Or.inl ⟨x, ⟨hx, by simpa using hk⟩, rfl⟩
    · exact Or.inr h

theorem nodup_keys_mapSet (ins : List (String × α)) (k : String) (v : α)
    (h : (ins.map Prod.fst).Nodup) : ((mapSet ins k v).map Prod.fst).Nodup := by
  simp only [mapSet, List.map_append, List.map_cons, List.map_nil]
  refine List.Nodup.append (h.sublist ((List.filter_sublist ins).map Prod.fst))
    (List.nodup_singleton k) ?_
  intro x hx hk
  rw [List.mem_singleton] at hk
  subst hk
  obtain ⟨y, hy, hyx⟩ := List.mem_map.1 hx
  have := (List.mem_filter.1 hy).2
  simp [hyx] at this

end Maps

/-! ## The loop of the map accessor -/

section MapLoop

variable {Node Config Streamed : Type} [Inhabited Config]

theorem mapLoop_cons_ok (dec : Node → Config × Option GoError)
    (m : Manager Node Config Streamed) (k : String) (v : AnyVal Node Config)
    (rest : List (String × AnyVal Node Config)) (ins : List (String × OwnedInput Streamed))
    (tr : List (Event Node Config)) (hdec : decodeError dec v = none)
    (hnew : (m.factory (tr ++ decodeEvents v) (m.path ++ [k]) (decoded dec v)).2 = none) :
    mapLoop dec m ((k, v) :: rest) ins tr =
      mapLoop dec m rest
        (mapSet ins k ⟨(m.factory (tr ++ decodeEvents v) (m.path ++ [k]) (decoded dec v)).1⟩)
        (tr ++ entryEvents dec m.path (k, v)) := by
  rw [mapLoop, inputConfFromAny_eq, hdec]
  simp only [Manager.NewInput, Manager.IntoPath, hnew, entryEvents, List.append_assoc]

theorem mapLoop_ok (dec : Node → Config × Option GoError) (m : Manager Node Config Streamed)
    (ord : List (String × AnyVal Node Config)) (ins : List (String × OwnedInput Streamed))
    (tr : List (Event Node Config))
    (hdec : ∀ e ∈ ord, decodeError dec e.2 = none)
    (hnew : ∀ front e back, ord = front ++ e :: back →
      (m.factory (mapTraceBefore dec m.path tr front e) (m.path ++ [e.1]) (decoded dec e.2)).2
        = none) :
    ∃ out, mapLoop dec m ord ins tr = (.ok out, tr ++ ord.flatMap (entryEvents dec m.path)) ∧
      (∀ k, k ∈ out.map Prod.fst ↔ k ∈ ins.map Prod.fst ∨ k ∈ ord.map Prod.fst) ∧
      ((ins.map Prod.fst).Nodup → (out.map Prod.fst).Nodup) ∧
      (∀ k, k ∉ ord.map Prod.fst → mapGet out k = mapGet ins k) ∧
      (∀ front e back, ord = front ++ e :: back → e.1 ∉ back.map Prod.fst →
        mapGet out e.1 = some ⟨(m.factory (mapTraceBefore dec m.path tr front e)
          (m.path ++ [e.1]) (decoded dec e.2)).1⟩) := by
  induction ord generalizing ins tr with
  | nil =>
    refine ⟨ins, by simp [mapLoop], by simp, fun h => h, fun _ _ => rfl, ?_⟩
    intro front e back h
    simp at h
  | cons x rest ih =>
    rcases x with ⟨k, v⟩
    have hv : decodeError dec v = none := hdec (k, v) (List.mem_cons_self _ _)
    have h0 := hnew [] (k, v) rest rfl
    simp only [mapTraceBefore, List.flatMap_nil, List.append_nil] at h0
    have hdec' : ∀ e ∈ rest, decodeError dec e.2 = none :=
      fun e he => hdec e (List.mem_cons_of_mem _ he)
    have hshift : ∀ front e,
        mapTraceBefore dec m.path (tr ++ entryEvents dec m.path (k, v)) front e =
          mapTraceBefore dec m.path tr ((k, v) :: front) e := by
      intro front e
      simp [mapTraceBefore, List.flatMap_cons, List.append_assoc]
    have hnew' : ∀ front e back, rest = front ++ e :: back →
        (m.factory (mapTraceBefore dec m.path (tr ++ entryEvents dec m.path (k, v)) front e)
          (m.path ++ [e.1]) (decoded dec e.2)).2 = none := by
      intro front e back hsplit
      rw [hshift]
      exact hnew ((k, v) :: front) e back (by rw [hsplit]; rfl)
    obtain ⟨out, hrun, hkeys, hnodup, hother, hget⟩ :=
      ih (mapSet ins k ⟨(m.factory (tr ++ decodeEvents v) (m.path ++ [k]) (decoded dec v)).1⟩)
        (tr ++ entryEvents dec m.path (k, v)) hdec' hnew'
    refine ⟨out, ?_, ?_, ?_, ?_, ?_⟩
    · rw [mapLoop_cons_ok dec m k v rest ins tr hv h0, hrun]
      simp [List.flatMap_cons, List.append_assoc]
    · intro k'
      rw [hkeys k', mem_keys_mapSet]
      simp only [List.map_cons, List.mem_cons]
      tauto
    · intro hins
      exact hnodup (nodup_keys_mapSet ins k _ hins)
    · intro k' hk'
      simp only [List.map_cons, List.mem_cons, not_or] at hk'
      rw [hother k' hk'.2, mapGet_mapSet_ne ins k k' _ hk'.1]
    · intro front e back hsplit hback
      cases front with
      | nil =>
        simp only [List.nil_append, List.cons.injEq] at hsplit
        obtain ⟨rfl, rfl⟩ := hsplit
        rw [hother k hback, mapGet_mapSet_self]
        simp [mapTraceBefore]
      | cons y front =>
        simp only [List.cons_append, List.cons.injEq] at hsplit
        obtain ⟨rfl, hrest⟩ := hsplit
        rw [hget front e back hrest hback, hshift]

theorem mapLoop_decode_error (dec : Node → Config × Option GoError)
    (m : Manager Node Config Streamed) (front : List (String × AnyVal Node Config))
    (k : String) (v : AnyVal Node Config) (back : List (String × AnyVal Node Config))
    (err : GoError) (ins : List (String × OwnedInput Streamed)) (tr : List (Event Node Config))
    (hdec : ∀ e ∈ front, decodeError dec e.2 = none)
    (hnew : ∀ f e b, front = f ++ e :: b →
      (m.factory (mapTraceBefore dec m.path tr f e) (m.path ++ [e.1]) (decoded dec e.2)).2
        = none)
    (hv : decodeError dec v = some err) :
    mapLoop dec m (front ++ (k, v) :: back) ins tr =
      (.error (ErrorfW ("value " ++ k ++ ": ") err), mapTraceBefore dec m.path tr front (k, v)) := by
  induction front generalizing ins tr with
  | nil =>
    rw [List.nil_append, mapLoop, inputConfFromAny_eq, hv]
    simp [mapTraceBefore]
  | cons x front ih =>
    rcases x with ⟨k0, v0⟩
    have hv0 : decodeError dec v0 = none := hdec (k0, v0) (List.mem_cons_self _ _)
    have h0 := hnew [] (k0, v0) front rfl
    simp only [mapTraceBefore, List.flatMap_nil, List.append_nil] at h0
    have hshift : ∀ f e,
        mapTraceBefore dec m.path (tr ++ entryEvents dec m.path (k0, v0)) f e =
          mapTraceBefore dec m.path tr ((k0, v0) :: f) e := by
      intro f e
      simp [mapTraceBefore, List.flatMap_cons, List.append_assoc]
    rw [List.cons_append, mapLoop_cons_ok dec m k0 v0 _ ins tr hv0 h0,
      ih _ _ (fun e he => hdec e (List.mem_cons_of_mem _ he)) ?_, hshift]
    intro f e b hsplit
    rw [hshift]
    exact hnew ((k0, v0) :: f) e b (by rw [hsplit]; rfl)

end MapLoop

/-! ## The map accessor -/

section MapAccessor

variable {Node Config Streamed : Type} [Inhabited Config]

theorem key_not_mem_of_split {α : Type} (ord front back : List (String × α)) (e : String × α)
    (hkeys : (ord.map Prod.fst).Nodup) (hsplit : ord = front ++ e :: back) :
    e.1 ∉ front.map Prod.fst ∧ e.1 ∉ back.map Prod.fst := by
  subst hsplit
  simp only [List.map_append, List.map_cons] at hkeys
  have h := List.nodup_append.1 hkeys
  refine ⟨fun hmem => ?_, (List.nodup_cons.1 h.2.1).1⟩
  exact h.2.2 hmem (List.mem_cons_self _ _)

theorem occursIn_value_lead (k cause : String) :
    occursIn ("value " ++ k ++ ":") ("value " ++ k ++ ": " ++ cause) := by
  refine ⟨[], (" " ++ cause).data, ?_⟩
  simp [String.data_append]

/-- C7: when the path resolves to a mapping (with distinct keys), every value
decodes, and every instantiation the accessor asks for succeeds, then
`FieldInputMap` returns no error and a map whose keys are exactly the keys of
the mapping; the entry under key `k` wraps the input answered by the manager
narrowed to the path and then to `k`, asked with the decoded configuration of
the value at `k`. -/
theorem FieldInputMap_ok (dec : Node → Config × Option GoError) (rng : MapRange Node Config)
    (p : ParsedConfig Node Config Streamed) (path : List String) (tr : List (Event Node Config))
    (kvs : List (String × AnyVal Node Config))
    (hfield : p.field path = (.mapping kvs, true))
    (hkeys : (kvs.map Prod.fst).Nodup)
    (hdec : ∀ e ∈ kvs, decodeError dec e.2 = none)
    (hnew : ∀ front e back, rng.order kvs = front ++ e :: back →
      (((p.mgr.IntoPath path).IntoPath [e.1]).NewInput (decoded dec e.2)
        (mapTraceBefore dec (p.mgr.IntoPath path).path tr front e)).1.2 = none) :
    ∃ ins, (FieldInputMap dec rng p path tr).1 = (some ins, none) ∧
      (∀ k, k ∈ ins.map Prod.fst ↔ k ∈ kvs.map Prod.fst) ∧
      (ins.map Prod.fst).Nodup ∧
      ∀ front e back, rng.order kvs = front ++ e :: back →
        mapGet ins e.1 = some (OwnedInput.mk
          (((p.mgr.IntoPath path).IntoPath [e.1]).NewInput (decoded dec e.2)
            (mapTraceBefore dec (p.mgr.IntoPath path).path tr front e)).1.1) := by
  have hperm := rng.perm kvs
  have hordkeys : ((rng.order kvs).map Prod.fst).Nodup :=
    (hperm.map Prod.fst).nodup_iff.2 hkeys
  have hdec' : ∀ e ∈ rng.order kvs, decodeError dec e.2 = none :=
    fun e he => hdec e (hperm.mem_iff.1 he)
  obtain ⟨out, hrun, hmem, hnodup, -, hget⟩ :=
    mapLoop_ok dec (p.mgr.IntoPath path) (rng.order kvs) [] tr hdec' hnew
  refine ⟨out, ?_, ?_, hnodup List.nodup_nil, ?_⟩
  · simp [FieldInputMap, hfield, hrun]
  · intro k
    rw [hmem k, (hperm.map Prod.fst).mem_iff]
    simp
  · intro front e back hsplit
    exact hget front e back hsplit (key_not_mem_of_split _ front back e hordkeys hsplit).2

/-- Witness of C7: the mapping `inputs` of the sample tree, visited from the
last entry to the first. -/
theorem FieldInputMap_ok_witness :
    ∃ ins, (FieldInputMap sampleDecode reversedRange sampleConfig ["inputs"] []).1
        = (some ins, none) ∧
      (∀ k, k ∈ ins.map Prod.fst ↔
        k ∈ [("a", AnyVal.yamlNode 3), ("b", AnyVal.inputConfig (8 : Nat))].map Prod.fst) ∧
      (ins.map Prod.fst).Nodup ∧
      ∀ front e back,
        reversedRange.order [("a", AnyVal.yamlNode 3), ("b", AnyVal.inputConfig (8 : Nat))]
          = front ++ e :: back →
        mapGet ins e.1 = some (OwnedInput.mk
          (((sampleConfig.mgr.IntoPath ["inputs"]).IntoPath [e.1]).NewInput
            (decoded sampleDecode e.2)
            (mapTraceBefore sampleDecode (sampleConfig.mgr.IntoPath ["inputs"]).path []
              front e)).1.1) :=
  FieldInputMap_ok sampleDecode reversedRange sampleConfig ["inputs"] []
    [("a", .yamlNode 3), ("b", .inputConfig 8)] rfl (by decide)
    (by
      intro e he
      simp only [List.mem_cons, List.mem_singleton, List.not_mem_nil, or_false] at he
      rcases he with rfl | rfl <;> rfl)
    (fun _ _ _ _ => rfl)

/-- Counterexample to C8 as stated: in the sample mapping `map` only the value
at `b` fails to decode, yet with the entries visited `a` then `b` and a factory
that fails on the configuration of `a`, `FieldInputMap` returns the error
`input a: boom`, in which `value b:` does not occur. -/
theorem FieldInputMap_decode_error_counterexample :
    failingConfig.field ["map"] = (.mapping [("a", .yamlNode 7), ("b", .yamlNode 0)], true) ∧
    decodeError sampleDecode (AnyVal.yamlNode 7) = none ∧
    decodeError sampleDecode (AnyVal.yamlNode 0) = some (GoError.plain "bad node") ∧
    (FieldInputMap sampleDecode listedRange failingConfig ["map"] []).1 =
      (none, some (GoError.wrapped "input a: boom" (GoError.plain "boom"))) ∧
    ¬ occursIn "value b:" (GoError.wrapped "input a: boom" (GoError.plain "boom")).Error := by
  refine ⟨rfl, rfl, rfl, by decide, by decide⟩

/-- C8, amended: when the path resolves to a mapping (with distinct keys) in
which the value at key `k` fails to decode with error `err`, every other value
decodes, and every instantiation asked for the entries visited before `k`
succeeds, then, for every iteration order, `FieldInputMap` returns nil and the
error built by `fmt.Errorf("value %v: %w", k, err)`: its message is
`"value <k>: "` followed by the message of `err`, so `value <k>:` occurs in it,
and its wrapped cause is `err`. -/
theorem FieldInputMap_decode_error (dec : Node → Config × Option GoError)
    (rng : MapRange Node Config) (p : ParsedConfig Node Config Streamed) (path : List String)
    (tr : List (Event Node Config)) (kvs : List (String × AnyVal Node Config))
    (k : String) (v : AnyVal Node Config) (err : GoError)
    (hfield : p.field path = (.mapping kvs, true))
    (hkeys : (kvs.map Prod.fst).Nodup)
    (hk : (k, v) ∈ kvs) (hv : decodeError dec v = some err)
    (hothers : ∀ e ∈ kvs, e.1 ≠ k → decodeError dec e.2 = none)
    (hnew : ∀ front e back, rng.order kvs = front ++ e :: back → k ∈ back.map Prod.fst →
      (((p.mgr.IntoPath path).IntoPath [e.1]).NewInput (decoded dec e.2)
        (mapTraceBefore dec (p.mgr.IntoPath path).path tr front e)).1.2 = none) :
    ∃ e', (FieldInputMap dec rng p path tr).1 = (none, some e') ∧
      e'.Error = "value " ++ k ++ ": " ++ err.Error ∧ e'.Unwrap = some err ∧
      occursIn ("value " ++ k ++ ":") e'.Error := by
  have hperm := rng.perm kvs
  have hordkeys : ((rng.order kvs).map Prod.fst).Nodup :=
    (hperm.map Prod.fst).nodup_iff.2 hkeys
  obtain ⟨front, back, hsplit⟩ := List.append_of_mem (hperm.mem_iff.2 hk)
  have hkfront := (key_not_mem_of_split _ front back (k, v) hordkeys hsplit).1
  have hdec : ∀ e ∈ front, decodeError dec e.2 = none := by
    intro e he
    refine hothers e (hperm.mem_iff.1 (by rw [hsplit]; simp [he])) ?_
    intro hek
    exact hkfront (List.mem_map.2 ⟨e, he, hek⟩)
  have hnew' : ∀ f e b, front = f ++ e :: b →
      ((p.mgr.IntoPath path).factory (mapTraceBefore dec (p.mgr.IntoPath path).path tr f e)
        ((p.mgr.IntoPath path).path ++ [e.1]) (decoded dec e.2)).2 = none := by
    intro f e b hf
    exact hnew f e (b ++ (k, v) :: back) (by rw [hsplit, hf]; simp) (by simp)
  have hloop := mapLoop_decode_error dec (p.mgr.IntoPath path) front k v back err [] tr
    hdec hnew' hv
  rw [← hsplit] at hloop
  refine ⟨ErrorfW ("value " ++ k ++ ": ") err, ?_, rfl, rfl, occursIn_value_lead k err.Error⟩
  simp [FieldInputMap, hfield, hloop]

/-- Witness of C8, amended: the sample mapping `map` with a factory that never
fails, visited `a` then `b`; the value at `b` does not decode. -/
theorem FieldInputMap_decode_error_witness :
    ∃ e', (FieldInputMap sampleDecode listedRange sampleConfig ["map"] []).1 = (none, some e') ∧
      e'.Error = "value " ++ "b" ++ ": " ++ (GoError.plain "bad node").Error ∧
      e'.Unwrap = some (GoError.plain "bad node") ∧
      occursIn ("value " ++ "b" ++ ":") e'.Error :=
  FieldInputMap_decode_error sampleDecode listedRange sampleConfig ["map"] []
    [("a", .yamlNode 7), ("b", .yamlNode 0)] "b" (.yamlNode 0) (GoError.plain "bad node")
    rfl (by decide) (by simp) rfl
    (by
      intro e he hne
      simp only [List.mem_cons, List.mem_singleton, List.not_mem_nil, or_false] at he
      rcases he with rfl | rfl
      · rfl
      · exact absurd rfl hne)
    (fun _ _ _ _ _ => rfl)

end MapAccessor

/-! ## Instantiation failures in the list accessor -/

section ListInputError

variable {Node Config Streamed : Type}

theorem newInputLoop_error (m : Manager Node Config Streamed) (front : List Config) (c : Config)
    (back : List Config) (e : GoError) (i : Nat) (ins : List (Option (OwnedInput Streamed)))
    (tr : List (Event Node Config))
    (hfront : ∀ j c', front[j]? = some c' →
      (m.factory (tr ++ listInputEvents m.path i (front.take j)) (m.path ++ [Itoa (i + j)]) c').2
        = none)
    (hc : (m.factory (tr ++ listInputEvents m.path i front)
      (m.path ++ [Itoa (i + front.length)]) c).2 = some e) :
    newInputLoop m (front ++ c :: back) i ins tr =
      (.error (ErrorfW ("input " ++ Itoa (i + front.length) ++ ": ") e),
        tr ++ listInputEvents m.path i (front ++ [c])) := by
  induction front generalizing i ins tr with
  | nil =>
    simp only [listInputEvents, List.append_nil, List.length_nil, Nat.add_zero] at hc
    rw [List.nil_append, newInputLoop]
    simp [Manager.NewInput, Manager.IntoPath, hc, listInputEvents]
  | cons c0 front ih =>
    have h0 := hfront 0 c0 (by simp)
    simp only [List.take_zero, listInputEvents, List.append_nil, Nat.add_zero] at h0
    have hfront' : ∀ j c', front[j]? = some c' →
        (m.factory ((tr ++ [Event.newInput (m.path ++ [Itoa i]) c0]) ++
          listInputEvents m.path (i + 1) (front.take j)) (m.path ++ [Itoa (i + 1 + j)]) c').2
          = none := by
      intro j c' hj
      have := hfront (j + 1) c' (by simpa using hj)
      simpa [listInputEvents, Nat.add_assoc, Nat.add_comm 1 j] using this
    have hc' : (m.factory ((tr ++ [Event.newInput (m.path ++ [Itoa i]) c0]) ++
        listInputEvents m.path (i + 1) front) (m.path ++ [Itoa (i + 1 + front.length)]) c).2
        = some e := by
      simpa [listInputEvents, Nat.add_assoc, Nat.add_comm 1 front.length] using hc
    rw [List.cons_append, newInputLoop]
    simp only [Manager.NewInput, Manager.IntoPath, h0]
    rw [ih (i + 1) _ _ hfront' hc']
    simp [listInputEvents, Nat.add_assoc, Nat.add_comm 1 front.length]

theorem instantiations_listInputEvents (scope : List String) (i : Nat) (cs : List Config) :
    instantiations (listInputEvents scope i cs : List (Event Node Config)) =
      (cs.enumFrom i).map (fun jc => (scope ++ [Itoa jc.1], jc.2)) := by
  induction cs generalizing i with
  | nil => rfl
  | cons c cs ih => simp [listInputEvents, instantiations, List.enumFrom_cons, ih]

theorem input_index_unique (i j : Nat) (c₁ c₂ : String)
    (h : "input " ++ Itoa i ++ ": " ++ c₁ = "input " ++ Itoa j ++ ": " ++ c₂) : i = j := by
  have hdata := congrArg String.data h
  simp only [String.data_append, List.append_assoc] at hdata
  have hrest := List.append_cancel_left hdata
  exact Itoa_injective i j (String.ext
    (colon_split_unique _ _ _ _ (Itoa_no_colon i) (Itoa_no_colon j) hrest))

/-- C11: when the path resolves to a sequence whose elements all decode and `i`
is the least index at which the factory answers an error, `e`, then
`FieldInputList` returns a nil slice and the error built by
`fmt.Errorf("input %v: %w", i, e)`: its message is `"input <i>: "` followed by
the message of `e`, its wrapped cause is `e`, and the message reads
`input <j>: ...` for no index `j` other than `i`.  The instantiate calls
recorded are those of the indices `0` to `i`, in increasing order, each on the
manager narrowed to the path and then to the index, and no other. -/
theorem FieldInputList_input_error [Inhabited Config] (dec : Node → Config × Option GoError)
    (p : ParsedConfig Node Config Streamed) (path : List String) (tr : List (Event Node Config))
    (xs : List (AnyVal Node Config)) (i : Nat) (v : AnyVal Node Config) (e : GoError)
    (hfield : p.field path = (.slice xs, true))
    (hdec : ∀ u ∈ xs, decodeError dec u = none)
    (hi : xs[i]? = some v)
    (hfail : (((p.mgr.IntoPath path).IntoPath [Itoa i]).NewInput (decoded dec v)
      (listTraceBefore dec (p.mgr.IntoPath path).path tr xs i)).1.2 = some e)
    (hleast : ∀ j u, j < i → xs[j]? = some u →
      (((p.mgr.IntoPath path).IntoPath [Itoa j]).NewInput (decoded dec u)
        (listTraceBefore dec (p.mgr.IntoPath path).path tr xs j)).1.2 = none) :
    ∃ err, (FieldInputList dec p path tr).1 = (none, some err) ∧
      err.Error = "input " ++ Itoa i ++ ": " ++ e.Error ∧ err.Unwrap = some e ∧
      (∀ j cause, err.Error = "input " ++ Itoa j ++ ": " ++ cause → j = i) ∧
      instantiations (FieldInputList dec p path tr).2 =
        instantiations tr ++ (((xs.take (i + 1)).map (decoded dec)).enum.map
          (fun jc => ((p.mgr.IntoPath path).path ++ [Itoa jc.1], jc.2))) := by
  obtain ⟨fr, bk, hxs, hlen, -⟩ := split_at_index xs i v hi
  subst hlen
  have hloop := decodeLoop_ok dec xs hdec 0 [] tr
  rw [List.nil_append] at hloop
  have hmap : xs.map (decoded dec) =
      fr.map (decoded dec) ++ decoded dec v :: bk.map (decoded dec) := by
    rw [hxs]; simp
  have hfront : ∀ j c', (fr.map (decoded dec))[j]? = some c' →
      ((p.mgr.IntoPath path).factory ((tr ++ xs.flatMap decodeEvents) ++
        listInputEvents (p.mgr.IntoPath path).path 0 ((fr.map (decoded dec)).take j))
        ((p.mgr.IntoPath path).path ++ [Itoa (0 + j)]) c').2 = none := by
    intro j c' hc'
    rw [List.getElem?_map] at hc'
    obtain ⟨u, hu, rfl⟩ := Option.map_eq_some'.1 hc'
    obtain ⟨hj, -⟩ := List.getElem?_eq_some.1 hu
    have hxj : xs[j]? = some u := by
      rw [hxs, List.getElem?_append_left hj]; exact hu
    have htake : xs.take j = fr.take j := by
      rw [hxs]; exact List.take_append_of_le_length (Nat.le_of_lt hj)
    have := hleast j u hj hxj
    simpa [Manager.NewInput, Manager.IntoPath, listTraceBefore, htake, List.map_take] using this
  have htake : xs.take fr.length = fr := by
    rw [hxs]; exact List.take_left fr _
  have hc : ((p.mgr.IntoPath path).factory ((tr ++ xs.flatMap decodeEvents) ++
      listInputEvents (p.mgr.IntoPath path).path 0 (fr.map (decoded dec)))
      ((p.mgr.IntoPath path).path ++ [Itoa (0 + (fr.map (decoded dec)).length)])
      (decoded dec v)).2 = some e := by
    simpa [Manager.NewInput, Manager.IntoPath, listTraceBefore, htake] using hfail
  have hrun := newInputLoop_error (p.mgr.IntoPath path) (fr.map (decoded dec)) (decoded dec v)
    (bk.map (decoded dec)) e 0 (List.replicate (xs.map (decoded dec)).length none)
    (tr ++ xs.flatMap decodeEvents) hfront hc
  rw [← hmap] at hrun
  simp only [Nat.zero_add, List.length_map] at hrun
  have htake1 : xs.take (fr.length + 1) = fr ++ [v] := by
    rw [hxs]; simp [List.take_append]
  have hres : FieldInputList dec p path tr =
      ((none, some (ErrorfW ("input " ++ Itoa fr.length ++ ": ") e)),
        tr ++ xs.flatMap decodeEvents ++
          listInputEvents (p.mgr.IntoPath path).path 0 (fr.map (decoded dec) ++ [decoded dec v]))
      := by
    simp [FieldInputList, hfield, hloop, hrun]
  refine ⟨ErrorfW ("input " ++ Itoa fr.length ++ ": ") e, ?_, rfl, rfl, ?_, ?_⟩
  · rw [hres]
  · intro j cause hj
    exact (input_index_unique fr.length j e.Error cause hj).symm
  · rw [hres, htake1]
    simp [instantiations_append, instantiations_flatMap_decodeEvents,
      instantiations_listInputEvents, List.enum]

/-- Witness of C11: three elements that decode, the factory fails on the
configuration of element 1. -/
theorem FieldInputList_input_error_witness :
    ∃ err, (FieldInputList sampleDecode failingListConfig ["in"] []).1 = (none, some err) ∧
      err.Error = "input " ++ Itoa 1 ++ ": " ++ (GoError.plain "boom").Error ∧
      err.Unwrap = some (GoError.plain "boom") ∧
      (∀ j cause, err.Error = "input " ++ Itoa j ++ ": " ++ cause → j = 1) ∧
      instantiations (FieldInputList sampleDecode failingListConfig ["in"] []).2 =
        instantiations ([] : List (Event Nat Nat)) ++
          ((([AnyVal.yamlNode 3, AnyVal.yamlNode 7, AnyVal.yamlNode 4].take (1 + 1)).map
            (decoded sampleDecode)).enum.map
            (fun jc => ((failingListConfig.mgr.IntoPath ["in"]).path ++ [Itoa jc.1], jc.2))) :=
  FieldInputList_input_error sampleDecode failingListConfig ["in"] []
    [.yamlNode 3, .yamlNode 7, .yamlNode 4] 1 (.yamlNode 7) (GoError.plain "boom")
    rfl
    (by
      intro u hu
      simp only [List.mem_cons, List.mem_singleton, List.not_mem_nil, or_false] at hu
      rcases hu with rfl | rfl | rfl <;> rfl)
    rfl rfl
    (by
      intro j u hj hu
      obtain rfl : j = 0 := by omega
      simp only [List.getElem?_cons_zero, Option.some.injEq] at hu
      subst hu
      rfl)

end ListInputError

/-! ## Values of the wrong kind in the decoder -/

section DecoderShape

variable {Node Config Streamed : Type} [Inhabited Config]

/-- C12: on a value that is neither a document node nor a typed configuration,
`inputConfFromAny` returns the error `unexpected value, expected object, got
<kind>`, `<kind>` being what `%T` prints for the value, and records no call;
`FieldInput` on a path resolving to such a value returns nil and that very
error, and the trace is left as it was: nothing is instantiated. -/
theorem inputConfFromAny_wrong_kind (dec : Node → Config × Option GoError)
    (p : ParsedConfig Node Config Streamed) (path : List String) (tr : List (Event Node Config))
    (v : AnyVal Node Config) (hnode : ∀ n, v ≠ .yamlNode n) (hconf : ∀ c, v ≠ .inputConfig c) :
    (inputConfFromAny dec v tr).1.2 =
      some (GoError.plain ("unexpected value, expected object, got " ++ v.typeName)) ∧
    (inputConfFromAny dec v tr).2 = tr ∧
    (p.field path = (v, true) →
      FieldInput dec p path tr =
        ((none, some (GoError.plain ("unexpected value, expected object, got " ++ v.typeName))),
          tr)) := by
  cases v with
  | yamlNode n => exact absurd rfl (hnode n)
  | inputConfig c => exact absurd rfl (hconf c)
  | slice xs => exact ⟨rfl, rfl, fun hfield => by simp [FieldInput, hfield, inputConfFromAny, Errorf]⟩
  | mapping kvs =>
    exact ⟨rfl, rfl, fun hfield => by simp [FieldInput, hfield, inputConfFromAny, Errorf]⟩
  | other goType =>
    exact ⟨rfl, rfl, fun hfield => by simp [FieldInput, hfield, inputConfFromAny, Errorf]⟩

/-- Witness of C12: the string at `bar` of the sample tree read through the
scalar accessor. -/
theorem inputConfFromAny_wrong_kind_witness :
    FieldInput sampleDecode sampleConfig ["bar"] [] =
      ((none, some (GoError.plain "unexpected value, expected object, got string")), []) :=
  (inputConfFromAny_wrong_kind sampleDecode sampleConfig ["bar"] [] (.other "string")
    (fun _ h => AnyVal.noConfusion h) (fun _ h => AnyVal.noConfusion h)).2.2 rfl

end DecoderShape

/-! ## Instantiation failures in the map accessor -/

section MapInputError

variable {Node Config Streamed : Type} [Inhabited Config]

theorem mapLoop_input_error (dec : Node → Config × Option GoError)
    (m : Manager Node Config Streamed) (front : List (String × AnyVal Node Config))
    (k : String) (v : AnyVal Node Config) (back : List (String × AnyVal Node Config))
    (err : GoError) (ins : List (String × OwnedInput Streamed)) (tr : List (Event Node Config))
    (hdec : ∀ e ∈ front, decodeError dec e.2 = none)
    (hnew : ∀ f e b, front = f ++ e :: b →
      (m.factory (mapTraceBefore dec m.path tr f e) (m.path ++ [e.1]) (decoded dec e.2)).2
        = none)
    (hv : decodeError dec v = none)
    (hfail : (m.factory (mapTraceBefore dec m.path tr front (k, v)) (m.path ++ [k])
      (decoded dec v)).2 = some err) :
    mapLoop dec m (front ++ (k, v) :: back) ins tr =
      (.error (ErrorfW ("input " ++ k ++ ": ") err),
        mapTraceBefore dec m.path tr front (k, v) ++
          [Event.newInput (m.path ++ [k]) (decoded dec v)]) := by
  induction front generalizing ins tr with
  | nil =>
    simp only [mapTraceBefore, List.flatMap_nil, List.append_nil] at hfail
    rw [List.nil_append, mapLoop, inputConfFromAny_eq, hv]
    simp [Manager.NewInput, Manager.IntoPath, hfail, mapTraceBefore]
  | cons x front ih =>
    rcases x with ⟨k0, v0⟩
    have hv0 : decodeError dec v0 = none := hdec (k0, v0) (List.mem_cons_self _ _)
    have h0 := hnew [] (k0, v0) front rfl
    simp only [mapTraceBefore, List.flatMap_nil, List.append_nil] at h0
    have hshift : ∀ f e,
        mapTraceBefore dec m.path (tr ++ entryEvents dec m.path (k0, v0)) f e =
          mapTraceBefore dec m.path tr ((k0, v0) :: f) e := by
      intro f e
      simp [mapTraceBefore, List.flatMap_cons, List.append_assoc]
    rw [List.cons_append, mapLoop_cons_ok dec m k0 v0 _ ins tr hv0 h0,
      ih _ _ (fun e he => hdec e (List.mem_cons_of_mem _ he)) ?_ ?_, hshift]
    · intro f e b hsplit
      rw [hshift]
      exact hnew ((k0, v0) :: f) e b (by rw [hsplit]; rfl)
    · rw [hshift]
      exact hfail

/-- C13: when the path resolves to a mapping whose values all decode, and in
the iteration order taken `k` is the first key at which the factory, asked on
the manager narrowed to the path and then to `k`, answers an error, `err`, then
`FieldInputMap` returns a nil map and the error built by
`fmt.Errorf("input %v: %w", k, err)`: its message is `"input <k>: "` followed
by the message of `err`, and its wrapped cause is `err`. -/
theorem FieldInputMap_input_error (dec : Node → Config × Option GoError)
    (rng : MapRange Node Config) (p : ParsedConfig Node Config Streamed) (path : List String)
    (tr : List (Event Node Config)) (kvs front back : List (String × AnyVal Node Config))
    (k : String) (v : AnyVal Node Config) (err : GoError)
    (hfield : p.field path = (.mapping kvs, true))
    (hdec : ∀ e ∈ kvs, decodeError dec e.2 = none)
    (hsplit : rng.order kvs = front ++ (k, v) :: back)
    (hfront : ∀ f e b, front = f ++ e :: b →
      (((p.mgr.IntoPath path).IntoPath [e.1]).NewInput (decoded dec e.2)
        (mapTraceBefore dec (p.mgr.IntoPath path).path tr f e)).1.2 = none)
    (hfail : (((p.mgr.IntoPath path).IntoPath [k]).NewInput (decoded dec v)
      (mapTraceBefore dec (p.mgr.IntoPath path).path tr front (k, v))).1.2 = some err) :
    ∃ e', (FieldInputMap dec rng p path tr).1 = (none, some e') ∧
      e'.Error = "input " ++ k ++ ": " ++ err.Error ∧ e'.Unwrap = some err := by
  have hperm := rng.perm kvs
  have hord : ∀ e ∈ rng.order kvs, decodeError dec e.2 = none :=
    fun e he => hdec e (hperm.mem_iff.1 he)
  have hdecfront : ∀ e ∈ front, decodeError dec e.2 = none :=
    fun e he => hord e (by rw [hsplit]; simp [he])
  have hv : decodeError dec v = none := hord (k, v) (by rw [hsplit]; simp)
  have hloop := mapLoop_input_error dec (p.mgr.IntoPath path) front k v back err [] tr
    hdecfront hfront hv hfail
  rw [← hsplit] at hloop
  refine ⟨ErrorfW ("input " ++ k ++ ": ") err, ?_, rfl, rfl⟩
  simp [FieldInputMap, hfield, hloop]

/-- Witness of C13: a mapping of two values that decode, visited `a` then `b`;
the factory fails on the configuration of `b`. -/
theorem FieldInputMap_input_error_witness :
    ∃ e', (FieldInputMap sampleDecode listedRange failingMapConfig ["m"] []).1
        = (none, some e') ∧
      e'.Error = "input " ++ "b" ++ ": " ++ (GoError.plain "boom").Error ∧
      e'.Unwrap = some (GoError.plain "boom") :=
  FieldInputMap_input_error sampleDecode listedRange failingMapConfig ["m"] []
    [("a", .yamlNode 3), ("b", .yamlNode 7)] [("a", .yamlNode 3)] [] "b" (.yamlNode 7)
    (GoError.plain "boom") rfl
    (by
      intro e he
      simp only [List.mem_cons, List.mem_singleton, List.not_mem_nil, or_false] at he
      rcases he with rfl | rfl <;> rfl)
    rfl
    (by
      intro f e b hf
      have hlen := congrArg List.length hf
      simp only [List.length_cons, List.length_nil, List.length_append] at hlen
      have hf0 : f = [] := List.length_eq_zero.1 (by omega)
      subst hf0
      simp only [List.nil_append, List.cons.injEq] at hf
      obtain ⟨rfl, -⟩ := hf
      rfl)
    rfl

end MapInputError

/-! ## One pass over the entries of a mapping -/

section OnePass

/-- C14: the map accessor decodes and instantiates entry by entry.  On the
sample mapping `map`, whose value at `a` decodes and whose value at `b` does
not, visited `a` then `b`, `FieldInputMap` returns a nil map and the error
`value b: bad node`, and by then the manager narrowed to `map` and `a` has been
asked for the component of `a`, between the two decodes.  The list accessor on
the sample sequence `list`, whose element 1 does not decode, records no
instantiate call. -/
theorem FieldInputMap_instantiates_before_decode_error :
    sampleConfig.field ["map"] = (.mapping [("a", .yamlNode 7), ("b", .yamlNode 0)], true) ∧
    decodeError sampleDecode (AnyVal.yamlNode 7) = none ∧
    decodeError sampleDecode (AnyVal.yamlNode 0) = some (GoError.plain "bad node") ∧
    FieldInputMap sampleDecode listedRange sampleConfig ["map"] [] =
      ((none, some (GoError.wrapped "value b: bad node" (GoError.plain "bad node"))),
        [Event.decode 7, Event.newInput ["root", "map", "a"] 7, Event.decode 0]) ∧
    instantiations (FieldInputMap sampleDecode listedRange sampleConfig ["map"] []).2 =
      [(["root", "map", "a"], 7)] ∧
    instantiations (FieldInputList sampleDecode sampleConfig ["list"] []).2 = [] := by
  refine ⟨rfl, rfl, rfl, by decide, by decide, by decide⟩

end OnePass

/-! ## Independence of the iteration order -/

section OrderIndependence

variable {Node Config Streamed : Type} [Inhabited Config]

theorem FieldInputMap_fst (dec : Node → Config × Option GoError) (rng : MapRange Node Config)
    (p : ParsedConfig Node Config Streamed) (path : List String) (tr : List (Event Node Config))
    (kvs : List (String × AnyVal Node Config)) (hfield : p.field path = (.mapping kvs, true)) :
    (FieldInputMap dec rng p path tr).1 =
      match (mapLoop dec (p.mgr.IntoPath path) (rng.order kvs) [] tr).1 with
      | .error e => (none, some e)
      | .ok ins => (some ins, none) := by
  simp only [FieldInputMap, hfield]
  generalize mapLoop dec (p.mgr.IntoPath path) (rng.order kvs) [] tr = r
  rcases r with ⟨_ | ins, tr1⟩ <;> rfl

theorem mapLoop_single_failure (dec : Node → Config × Option GoError)
    (m : Manager Node Config Streamed) (ord : List (String × AnyVal Node Config))
    (k : String) (v : AnyVal Node Config) (tr : List (Event Node Config))
    (hkeys : (ord.map Prod.fst).Nodup)
    (hpure : ∀ t t' scope c, m.factory t scope c = m.factory t' scope c)
    (hk : (k, v) ∈ ord) (hfail : canFail dec m (k, v))
    (hothers : ∀ e ∈ ord, e.1 ≠ k → ¬ canFail dec m e) :
    (mapLoop dec m ord [] tr).1 = (mapLoop dec m [(k, v)] [] []).1 := by
  obtain ⟨front, back, hsplit⟩ := List.append_of_mem hk
  have hkfront := (key_not_mem_of_split ord front back (k, v) hkeys hsplit).1
  have hgood : ∀ e ∈ front, ¬ canFail dec m e := by
    intro e he
    refine hothers e (by rw [hsplit]; simp [he]) ?_
    intro hek
    exact hkfront (List.mem_map.2 ⟨e, he, hek⟩)
  have hdec : ∀ e ∈ front, decodeError dec e.2 = none := by
    intro e he
    have := hgood e he
    simp only [canFail, not_or, not_not] at this
    exact this.1
  have hnew : ∀ f e b, front = f ++ e :: b →
      (m.factory (mapTraceBefore dec m.path tr f e) (m.path ++ [e.1]) (decoded dec e.2)).2
        = none := by
    intro f e b hf
    have := hgood e (by rw [hf]; simp)
    simp only [canFail, not_or, not_not, Manager.NewInput, Manager.IntoPath] at this
    rw [hpure _ [] _ _]
    exact this.2
  have hnil : ∀ f e b, ([] : List (String × AnyVal Node Config)) = f ++ e :: b →
      (m.factory (mapTraceBefore dec m.path [] f e) (m.path ++ [e.1]) (decoded dec e.2)).2
        = none := by
    intro f e b hf
    simp at hf
  cases hv : decodeError dec v with
  | some err =>
    rw [hsplit, mapLoop_decode_error dec m front k v back err [] tr hdec hnew hv]
    have := mapLoop_decode_error dec m [] k v [] err [] [] (by simp) hnil hv
    rw [List.nil_append] at this
    rw [this]
  | none =>
    have hinst : (m.factory [] (m.path ++ [k]) (decoded dec v)).2 ≠ none := by
      rcases hfail with h | h
      · exact absurd hv h
      · simpa [Manager.NewInput, Manager.IntoPath] using h
    obtain ⟨err, herr⟩ := Option.ne_none_iff_exists'.1 hinst
    have h₁ : (m.factory (mapTraceBefore dec m.path tr front (k, v)) (m.path ++ [k])
        (decoded dec v)).2 = some err := by
      rw [hpure _ [] _ _]; exact herr
    have h₂ : (m.factory (mapTraceBefore dec m.path [] [] (k, v)) (m.path ++ [k])
        (decoded dec v)).2 = some err := by
      rw [hpure _ [] _ _]; exact herr
    rw [hsplit, mapLoop_input_error dec m front k v back err [] tr hdec hnew hv h₁]
    have := mapLoop_input_error dec m [] k v [] err [] [] (by simp) hnil hv h₂
    rw [List.nil_append] at this
    rw [this]

theorem mapLoop_no_failure (dec : Node → Config × Option GoError)
    (m : Manager Node Config Streamed) (ord : List (String × AnyVal Node Config))
    (tr : List (Event Node Config))
    (hkeys : (ord.map Prod.fst).Nodup)
    (hpure : ∀ t t' scope c, m.factory t scope c = m.factory t' scope c)
    (hgood : ∀ e ∈ ord, ¬ canFail dec m e) :
    ∃ out, (mapLoop dec m ord [] tr).1 = .ok out ∧
      (∀ k v, (k, v) ∈ ord →
        mapGet out k = some ⟨(m.factory [] (m.path ++ [k]) (decoded dec v)).1⟩) ∧
      (∀ k, k ∉ ord.map Prod.fst → mapGet out k = none) := by
  have hdec : ∀ e ∈ ord, decodeError dec e.2 = none := by
    intro e he
    have := hgood e he
    simp only [canFail, not_or, not_not] at this
    exact this.1
  have hnew : ∀ front e back, ord = front ++ e :: back →
      (m.factory (mapTraceBefore dec m.path tr front e) (m.path ++ [e.1]) (decoded dec e.2)).2
        = none := by
    intro f e b hf
    have := hgood e (by rw [hf]; simp)
    simp only [canFail, not_or, not_not, Manager.NewInput, Manager.IntoPath] at this
    rw [hpure _ [] _ _]
    exact this.2
  obtain ⟨out, hrun, -, -, hother, hget⟩ := mapLoop_ok dec m ord [] tr hdec hnew
  refine ⟨out, by rw [hrun], ?_, ?_⟩
  · intro k v hk
    obtain ⟨front, back, hsplit⟩ := List.append_of_mem hk
    have hback := (key_not_mem_of_split ord front back (k, v) hkeys hsplit).2
    rw [hget front (k, v) back hsplit hback, hpure _ [] _ _]
  · intro k hk
    rw [hother k hk]
    rfl

/-- C15: for a factory whose answer depends only on the manager path and the
configuration, and a mapping (with distinct keys) in which at most one entry
can fail, to decode or to instantiate, the value `FieldInputMap` returns is the
same for any two iteration orders: the same error, or maps holding the same
owned input under every key. -/
theorem FieldInputMap_order_independent (dec : Node → Config × Option GoError)
    (rng₁ rng₂ : MapRange Node Config) (p : ParsedConfig Node Config Streamed)
    (path : List String) (tr₁ tr₂ : List (Event Node Config))
    (kvs : List (String × AnyVal Node Config))
    (hfield : p.field path = (.mapping kvs, true))
    (hkeys : (kvs.map Prod.fst).Nodup)
    (hpure : ∀ t t' scope c, p.mgr.factory t scope c = p.mgr.factory t' scope c)
    (hone : ∀ e₁ ∈ kvs, ∀ e₂ ∈ kvs, canFail dec (p.mgr.IntoPath path) e₁ →
      canFail dec (p.mgr.IntoPath path) e₂ → e₁.1 = e₂.1) :
    sameResult (FieldInputMap dec rng₁ p path tr₁).1 (FieldInputMap dec rng₂ p path tr₂).1 := by
  rw [FieldInputMap_fst dec rng₁ p path tr₁ kvs hfield,
    FieldInputMap_fst dec rng₂ p path tr₂ kvs hfield]
  have hpure' : ∀ t t' scope c,
      (p.mgr.IntoPath path).factory t scope c = (p.mgr.IntoPath path).factory t' scope c :=
    fun t t' scope c => hpure t t' scope c
  have hordkeys : ∀ rng : MapRange Node Config, ((rng.order kvs).map Prod.fst).Nodup :=
    fun rng => ((rng.perm kvs).map Prod.fst).nodup_iff.2 hkeys
  by_cases hany : ∃ e ∈ kvs, canFail dec (p.mgr.IntoPath path) e
  · obtain ⟨⟨k, v⟩, hk, hfail⟩ := hany
    have key : ∀ (rng : MapRange Node Config) (tr : List (Event Node Config)),
        (mapLoop dec (p.mgr.IntoPath path) (rng.order kvs) [] tr).1 =
          (mapLoop dec (p.mgr.IntoPath path) [(k, v)] [] []).1 := by
      intro rng tr
      refine mapLoop_single_failure dec (p.mgr.IntoPath path) (rng.order kvs) k v tr
        (hordkeys rng) hpure' ((rng.perm kvs).mem_iff.2 hk) hfail ?_
      intro e he hne hc
      exact hne (hone e ((rng.perm kvs).mem_iff.1 he) (k, v) hk hc hfail)
    rw [key rng₁ tr₁, key rng₂ tr₂]
    generalize (mapLoop dec (p.mgr.IntoPath path) [(k, v)] [] []).1 = r
    cases r <;> simp [sameResult]
  · have hgood : ∀ rng : MapRange Node Config, ∀ e ∈ rng.order kvs,
        ¬ canFail dec (p.mgr.IntoPath path) e :=
      fun rng e he hc => hany ⟨e, (rng.perm kvs).mem_iff.1 he, hc⟩
    obtain ⟨out₁, hrun₁, hget₁, hnone₁⟩ :=
      mapLoop_no_failure dec (p.mgr.IntoPath path) (rng₁.order kvs) tr₁ (hordkeys rng₁) hpure'
        (hgood rng₁)
    obtain ⟨out₂, hrun₂, hget₂, hnone₂⟩ :=
      mapLoop_no_failure dec (p.mgr.IntoPath path) (rng₂.order kvs) tr₂ (hordkeys rng₂) hpure'
        (hgood rng₂)
    rw [hrun₁, hrun₂]
    refine ⟨rfl, ?_⟩
    intro k
    by_cases hk : k ∈ kvs.map Prod.fst
    · obtain ⟨⟨k', v⟩, hmem, rfl⟩ := List.mem_map.1 hk
      rw [hget₁ k' v ((rng₁.perm kvs).mem_iff.2 hmem),
        hget₂ k' v ((rng₂.perm kvs).mem_iff.2 hmem)]
    · rw [hnone₁ k (fun h => hk (((rng₁.perm kvs).map Prod.fst).mem_iff.1 h)),
        hnone₂ k (fun h => hk (((rng₂.perm kvs).map Prod.fst).mem_iff.1 h))]

/-- Witness of C15: the sample mapping `map`, in which only the value at `b`
can fail, visited in the listed order and in the opposite order. -/
theorem FieldInputMap_order_independent_witness :
    sameResult (FieldInputMap sampleDecode listedRange sampleConfig ["map"] []).1
      (FieldInputMap sampleDecode reversedRange sampleConfig ["map"] []).1 :=
  FieldInputMap_order_independent sampleDecode listedRange reversedRange sampleConfig ["map"]
    [] [] [("a", .yamlNode 7), ("b", .yamlNode 0)] rfl (by decide) (fun _ _ _ _ => rfl)
    (by
      intro e₁ h₁ e₂ h₂ c₁ c₂
      simp only [List.mem_cons, List.mem_singleton, List.not_mem_nil, or_false] at h₁ h₂
      rcases h₁ with rfl | rfl
      · exact absurd c₁ (by decide)
      · rcases h₂ with rfl | rfl
        · exact absurd c₂ (by decide)
        · rfl)

end OrderIndependence

/-! ## Mappings of typed configurations -/

section TypedEntries

variable {Node Config : Type}

theorem typed_split (ord : List (String × Config))
    (front' back' : List (String × AnyVal Node Config)) (e : String × AnyVal Node Config)
    (h : ord.map typedEntry = front' ++ e :: back') :
    ∃ front kc back, ord = front ++ kc :: back ∧ front' = front.map typedEntry ∧
      e = typedEntry kc ∧ back' = back.map typedEntry := by
  obtain ⟨front, rest, hord, hfront, hrest⟩ := List.map_eq_append_iff.1 h
  obtain ⟨kc, back, hrest', hkc, hback⟩ := List.map_eq_cons_iff.1 hrest
  exact ⟨front, kc, back, by rw [hord, hrest'], hfront.symm, hkc.symm, hback.symm⟩

theorem keys_map_typedEntry (ord : List (String × Config)) :
    (ord.map (typedEntry : String × Config → String × AnyVal Node Config)).map Prod.fst =
      ord.map Prod.fst := by
  simp [typedEntry, List.map_map, Function.comp_def]

end TypedEntries

/-! ## Typed configurations through the accessors -/

section TypedAccessors

variable {Node Config Streamed : Type} [Inhabited Config]

theorem flatMap_entryEvents_typed (dec : Node → Config × Option GoError) (scope : List String)
    (ord : List (String × Config)) :
    (ord.map typedEntry).flatMap (entryEvents dec scope) = ord.map (typedCall scope) := by
  induction ord with
  | nil => rfl
  | cons kc ord ih =>
    rw [List.map_cons, List.flatMap_cons, ih]
    rfl

theorem mapTraceBefore_typed (dec : Node → Config × Option GoError) (scope : List String)
    (tr : List (Event Node Config)) (front : List (String × Config)) (kc : String × Config) :
    mapTraceBefore dec scope tr (front.map typedEntry) (typedEntry kc) =
      tr ++ front.map (typedCall scope) := by
  simp [mapTraceBefore, flatMap_entryEvents_typed, typedEntry, decodeEvents]

theorem FieldInputList_typed_ok (dec : Node → Config × Option GoError)
    (p : ParsedConfig Node Config Streamed) (path : List String) (tr : List (Event Node Config))
    (cs : List Config)
    (hfield : p.field path = (.slice (cs.map AnyVal.inputConfig), true))
    (hnew : ∀ j c', cs[j]? = some c' →
      (((p.mgr.IntoPath path).IntoPath [Itoa j]).NewInput c'
        (tr ++ listInputEvents (p.mgr.IntoPath path).path 0 (cs.take j))).1.2 = none) :
    ∃ ins, FieldInputList dec p path tr =
        ((some ins, none), tr ++ listInputEvents (p.mgr.IntoPath path).path 0 cs) ∧
      ins.length = cs.length ∧
      ∀ j c', cs[j]? = some c' → ins[j]? = some (some (OwnedInput.mk
        (((p.mgr.IntoPath path).IntoPath [Itoa j]).NewInput c'
          (tr ++ listInputEvents (p.mgr.IntoPath path).path 0 (cs.take j))).1.1)) := by
  have hnew' : ∀ j c', cs[j]? = some c' →
      ((p.mgr.IntoPath path).factory (tr ++
        listInputEvents (p.mgr.IntoPath path).path 0 (cs.take j))
        ((p.mgr.IntoPath path).path ++ [Itoa (0 + j)]) c').2 = none := by
    intro j c' hc'
    simpa [Manager.NewInput, Manager.IntoPath] using hnew j c' hc'
  obtain ⟨out, hrun, hlen, -, hget⟩ :=
    newInputLoop_ok (p.mgr.IntoPath path) cs 0 (List.replicate cs.length none) tr hnew'
  refine ⟨out, ?_, by simpa using hlen, ?_⟩
  · simp [FieldInputList, hfield, decodeLoop_typed, hrun]
  · intro j c' hc'
    obtain ⟨hj, -⟩ := List.getElem?_eq_some.1 hc'
    have := hget j c' hc' (by simpa using hj)
    simpa [Manager.NewInput, Manager.IntoPath] using this

theorem FieldInputList_typed_error (dec : Node → Config × Option GoError)
    (p : ParsedConfig Node Config Streamed) (path : List String) (tr : List (Event Node Config))
    (cs : List Config) (i : Nat) (c' : Config) (e : GoError)
    (hfield : p.field path = (.slice (cs.map AnyVal.inputConfig), true))
    (hi : cs[i]? = some c')
    (hfail : (((p.mgr.IntoPath path).IntoPath [Itoa i]).NewInput c'
      (tr ++ listInputEvents (p.mgr.IntoPath path).path 0 (cs.take i))).1.2 = some e)
    (hleast : ∀ j c'', j < i → cs[j]? = some c'' →
      (((p.mgr.IntoPath path).IntoPath [Itoa j]).NewInput c''
        (tr ++ listInputEvents (p.mgr.IntoPath path).path 0 (cs.take j))).1.2 = none) :
    FieldInputList dec p path tr =
      ((none, some (ErrorfW ("input " ++ Itoa i ++ ": ") e)),
        tr ++ listInputEvents (p.mgr.IntoPath path).path 0 (cs.take (i + 1))) := by
  obtain ⟨fr, bk, hcs, hlen, -⟩ := split_at_index cs i c' hi
  subst hlen
  have htake : cs.take fr.length = fr := by
    rw [hcs]; exact List.take_left fr _
  have htake1 : cs.take (fr.length + 1) = fr ++ [c'] := by
    rw [hcs]; simp [List.take_append]
  have hfront : ∀ j c'', fr[j]? = some c'' →
      ((p.mgr.IntoPath path).factory (tr ++
        listInputEvents (p.mgr.IntoPath path).path 0 (fr.take j))
        ((p.mgr.IntoPath path).path ++ [Itoa (0 + j)]) c'').2 = none := by
    intro j c'' hc''
    obtain ⟨hj, -⟩ := List.getElem?_eq_some.1 hc''
    have hcj : cs[j]? = some c'' := by
      rw [hcs, List.getElem?_append_left hj]; exact hc''
    have htj : cs.take j = fr.take j := by
      rw [hcs]; exact List.take_append_of_le_length (Nat.le_of_lt hj)
    have := hleast j c'' hj hcj
    simpa [Manager.NewInput, Manager.IntoPath, htj] using this
  have hc : ((p.mgr.IntoPath path).factory (tr ++
      listInputEvents (p.mgr.IntoPath path).path 0 fr)
      ((p.mgr.IntoPath path).path ++ [Itoa (0 + fr.length)]) c').2 = some e := by
    simpa [Manager.NewInput, Manager.IntoPath, htake] using hfail
  have hrun := newInputLoop_error (p.mgr.IntoPath path) fr c' bk e 0
    (List.replicate cs.length none) tr hfront hc
  rw [← hcs] at hrun
  simp only [Nat.zero_add] at hrun
  rw [htake1]
  simp [FieldInputList, hfield, decodeLoop_typed, hrun]

theorem FieldInputMap_typed_ok (dec : Node → Config × Option GoError)
    (rng : MapRange Node Config) (p : ParsedConfig Node Config Streamed) (path : List String)
    (tr : List (Event Node Config)) (kvs : List (String × AnyVal Node Config))
    (ord : List (String × Config))
    (hfield : p.field path = (.mapping kvs, true))
    (hord : rng.order kvs = ord.map typedEntry)
    (hkeys : (ord.map Prod.fst).Nodup)
    (hnew : ∀ front kc back, ord = front ++ kc :: back →
      (((p.mgr.IntoPath path).IntoPath [kc.1]).NewInput kc.2
        (tr ++ front.map (typedCall (p.mgr.IntoPath path).path))).1.2 = none) :
    ∃ ins, FieldInputMap dec rng p path tr =
        ((some ins, none), tr ++ ord.map (typedCall (p.mgr.IntoPath path).path)) ∧
      (∀ k, k ∈ ins.map Prod.fst ↔ k ∈ ord.map Prod.fst) ∧
      ∀ front kc back, ord = front ++ kc :: back →
        mapGet ins kc.1 = some (OwnedInput.mk
          (((p.mgr.IntoPath path).IntoPath [kc.1]).NewInput kc.2
            (tr ++ front.map (typedCall (p.mgr.IntoPath path).path))).1.1) := by
  have hdec : ∀ e ∈ ord.map (typedEntry : String × Config → String × AnyVal Node Config),
      decodeError dec e.2 = none := by
    intro e he
    obtain ⟨kc, -, rfl⟩ := List.mem_map.1 he
    rfl
  have hnew' : ∀ front' e back', ord.map typedEntry = front' ++ e :: back' →
      ((p.mgr.IntoPath path).factory (mapTraceBefore dec (p.mgr.IntoPath path).path tr front' e)
        ((p.mgr.IntoPath path).path ++ [e.1]) (decoded dec e.2)).2 = none := by
    intro front' e back' hsplit
    obtain ⟨front, kc, back, hsp, rfl, rfl, -⟩ := typed_split ord front' back' e hsplit
    rw [mapTraceBefore_typed]
    exact hnew front kc back hsp
  obtain ⟨out, hrun, hmem, -, -, hget⟩ :=
    mapLoop_ok dec (p.mgr.IntoPath path) (ord.map typedEntry) [] tr hdec hnew'
  rw [flatMap_entryEvents_typed] at hrun
  refine ⟨out, ?_, ?_, ?_⟩
  · simp [FieldInputMap, hfield, hord, hrun]
  · intro k
    rw [hmem k, keys_map_typedEntry]
    simp
  · intro front kc back hsp
    have hback : (typedEntry kc : String × AnyVal Node Config).1 ∉
        (back.map (typedEntry : String × Config → String × AnyVal Node Config)).map Prod.fst := by
      rw [keys_map_typedEntry]
      exact (key_not_mem_of_split ord front back kc hkeys hsp).2
    have := hget (front.map typedEntry) (typedEntry kc) (back.map typedEntry)
      (by rw [hsp]; simp) hback
    rw [mapTraceBefore_typed] at this
    exact this

theorem FieldInputMap_typed_error (dec : Node → Config × Option GoError)
    (rng : MapRange Node Config) (p : ParsedConfig Node Config Streamed) (path : List String)
    (tr : List (Event Node Config)) (kvs : List (String × AnyVal Node Config))
    (front : List (String × Config)) (kc : String × Config) (back : List (String × Config))
    (e : GoError)
    (hfield : p.field path = (.mapping kvs, true))
    (hord : rng.order kvs = (front ++ kc :: back).map typedEntry)
    (hfront : ∀ f kc' b, front = f ++ kc' :: b →
      (((p.mgr.IntoPath path).IntoPath [kc'.1]).NewInput kc'.2
        (tr ++ f.map (typedCall (p.mgr.IntoPath path).path))).1.2 = none)
    (hfail : (((p.mgr.IntoPath path).IntoPath [kc.1]).NewInput kc.2
      (tr ++ front.map (typedCall (p.mgr.IntoPath path).path))).1.2 = some e) :
    FieldInputMap dec rng p path tr =
      ((none, some (ErrorfW ("input " ++ kc.1 ++ ": ") e)),
        tr ++ (front ++ [kc]).map (typedCall (p.mgr.IntoPath path).path)) := by
  have hdec : ∀ x ∈ front.map (typedEntry : String × Config → String × AnyVal Node Config),
      decodeError dec x.2 = none := by
    intro x hx
    obtain ⟨kc', -, rfl⟩ := List.mem_map.1 hx
    rfl
  have hnew' : ∀ f' x b', front.map typedEntry = f' ++ x :: b' →
      ((p.mgr.IntoPath path).factory (mapTraceBefore dec (p.mgr.IntoPath path).path tr f' x)
        ((p.mgr.IntoPath path).path ++ [x.1]) (decoded dec x.2)).2 = none := by
    intro f' x b' hsplit
    obtain ⟨f, kc', b, hsp, rfl, rfl, -⟩ := typed_split front f' b' x hsplit
    rw [mapTraceBefore_typed]
    exact hfront f kc' b hsp
  have hfail' : ((p.mgr.IntoPath path).factory
      (mapTraceBefore dec (p.mgr.IntoPath path).path tr (front.map typedEntry) (kc.1,
        AnyVal.inputConfig kc.2))
      ((p.mgr.IntoPath path).path ++ [kc.1]) (decoded dec (AnyVal.inputConfig kc.2))).2
      = some e := by
    have h := mapTraceBefore_typed dec (p.mgr.IntoPath path).path tr front kc
    simp only [typedEntry] at h
    rw [h]
    exact hfail
  have hloop := mapLoop_input_error dec (p.mgr.IntoPath path) (front.map typedEntry) kc.1
    (AnyVal.inputConfig kc.2) (back.map typedEntry) e [] tr hdec hnew' rfl hfail'
  have hshape : (front ++ kc :: back).map
      (typedEntry : String × Config → String × AnyVal Node Config) =
      front.map typedEntry ++ (kc.1, AnyVal.inputConfig kc.2) :: back.map typedEntry := by
    simp [typedEntry]
  have htrace : mapTraceBefore dec (p.mgr.IntoPath path).path tr (front.map typedEntry)
      (kc.1, AnyVal.inputConfig kc.2) ++
        [Event.newInput ((p.mgr.IntoPath path).path ++ [kc.1])
          (decoded dec (AnyVal.inputConfig kc.2))] =
      tr ++ (front ++ [kc]).map (typedCall (p.mgr.IntoPath path).path) := by
    have h := mapTraceBefore_typed dec (p.mgr.IntoPath path).path tr front kc
    simp only [typedEntry] at h
    rw [h]
    simp [typedCall, decoded, inputConfFromAny]
  rw [htrace] at hloop
  simp [FieldInputMap, hfield, hord, hshape, hloop]

/-- C6: `inputConfFromAny` returns a typed configuration `c` as it is, with no
error and no call recorded, whatever the decoder.  Hence `FieldInput` on a path
resolving to `c` returns what `NewInput(c)` of the manager narrowed to the path
answers.  `FieldInputList` on a sequence of typed configurations records only
instantiate calls, with these very configurations: when every call succeeds,
the slice returned holds at index `j` the input answered by the manager
narrowed to the path and then to the decimal string of `j`, asked with element
`j` itself; when the call of index `i` is the first to fail, the error of the
factory is returned under `input <i>: ` after the calls of indices `0` to `i`.
`FieldInputMap` on a mapping of typed configurations does the same value by
value, on the manager narrowed to the path and then to the key, in the order
the entries are visited; each round of its loop on an entry `k: c` is the call
`NewInput(c)` of the manager narrowed to `k`, and its result does not depend
on the decoder. -/
theorem typed_config_bypasses_decoding (dec : Node → Config × Option GoError)
    (p : ParsedConfig Node Config Streamed) (path : List String) (tr : List (Event Node Config))
    (c : Config) :
    inputConfFromAny dec (.inputConfig c) tr = ((c, none), tr) ∧
    (p.field path = (.inputConfig c, true) →
      FieldInput dec p path tr =
        match (p.mgr.IntoPath path).NewInput c tr with
        | ((_, some e), tr2) => ((none, some e), tr2)
        | ((iproc, none), tr2) => ((some ⟨iproc⟩, none), tr2)) ∧
    (∀ cs : List Config, p.field path = (.slice (cs.map AnyVal.inputConfig), true) →
      FieldInputList dec p path tr =
        match newInputLoop (p.mgr.IntoPath path) cs 0 (List.replicate cs.length none) tr with
        | (.error e, tr2) => ((none, some e), tr2)
        | (.ok ins, tr2) => ((some ins, none), tr2)) ∧
    (∀ (k : String) (rest : List (String × AnyVal Node Config))
        (ins : List (String × OwnedInput Streamed)),
      mapLoop dec (p.mgr.IntoPath path) ((k, .inputConfig c) :: rest) ins tr =
        match ((p.mgr.IntoPath path).IntoPath [k]).NewInput c tr with
        | ((_, some e), tr2) => (.error (ErrorfW ("input " ++ k ++ ": ") e), tr2)
        | ((iproc, none), tr2) =>
          mapLoop dec (p.mgr.IntoPath path) rest (mapSet ins k ⟨iproc⟩) tr2) ∧
    (∀ (dec' : Node → Config × Option GoError) (rng : MapRange Node Config)
        (kvs : List (String × AnyVal Node Config)),
      p.field path = (.mapping kvs, true) → (∀ e ∈ kvs, ∃ c', e.2 = AnyVal.inputConfig c') →
      FieldInputMap dec rng p path tr = FieldInputMap dec' rng p path tr) ∧
    (∀ cs : List Config, p.field path = (.slice (cs.map AnyVal.inputConfig), true) →
      (∀ j c', cs[j]? = some c' →
        (((p.mgr.IntoPath path).IntoPath [Itoa j]).NewInput c'
          (tr ++ listInputEvents (p.mgr.IntoPath path).path 0 (cs.take j))).1.2 = none) →
      ∃ ins, FieldInputList dec p path tr =
          ((some ins, none), tr ++ listInputEvents (p.mgr.IntoPath path).path 0 cs) ∧
        ins.length = cs.length ∧
        ∀ j c', cs[j]? = some c' → ins[j]? = some (some (OwnedInput.mk
          (((p.mgr.IntoPath path).IntoPath [Itoa j]).NewInput c'
            (tr ++ listInputEvents (p.mgr.IntoPath path).path 0 (cs.take j))).1.1))) ∧
    (∀ (cs : List Config) (i : Nat) (c' : Config) (e : GoError),
      p.field path = (.slice (cs.map AnyVal.inputConfig), true) → cs[i]? = some c' →
      (((p.mgr.IntoPath path).IntoPath [Itoa i]).NewInput c'
        (tr ++ listInputEvents (p.mgr.IntoPath path).path 0 (cs.take i))).1.2 = some e →
      (∀ j c'', j < i → cs[j]? = some c'' →
        (((p.mgr.IntoPath path).IntoPath [Itoa j]).NewInput c''
          (tr ++ listInputEvents (p.mgr.IntoPath path).path 0 (cs.take j))).1.2 = none) →
      FieldInputList dec p path tr =
        ((none, some (ErrorfW ("input " ++ Itoa i ++ ": ") e)),
          tr ++ listInputEvents (p.mgr.IntoPath path).path 0 (cs.take (i + 1)))) ∧
    (∀ (rng : MapRange Node Config) (kvs : List (String × AnyVal Node Config))
        (ord : List (String × Config)),
      p.field path = (.mapping kvs, true) → rng.order kvs = ord.map typedEntry →
      (ord.map Prod.fst).Nodup →
      (∀ front kc back, ord = front ++ kc :: back →
        (((p.mgr.IntoPath path).IntoPath [kc.1]).NewInput kc.2
          (tr ++ front.map (typedCall (p.mgr.IntoPath path).path))).1.2 = none) →
      ∃ ins, FieldInputMap dec rng p path tr =
          ((some ins, none), tr ++ ord.map (typedCall (p.mgr.IntoPath path).path)) ∧
        (∀ k, k ∈ ins.map Prod.fst ↔ k ∈ ord.map Prod.fst) ∧
        ∀ front kc back, ord = front ++ kc :: back →
          mapGet ins kc.1 = some (OwnedInput.mk
            (((p.mgr.IntoPath path).IntoPath [kc.1]).NewInput kc.2
              (tr ++ front.map (typedCall (p.mgr.IntoPath path).path))).1.1)) ∧
    (∀ (rng : MapRange Node Config) (kvs : List (String × AnyVal Node Config))
        (front : List (String × Config)) (kc : String × Config) (back : List (String × Config))
        (e : GoError),
      p.field path = (.mapping kvs, true) →
      rng.order kvs = (front ++ kc :: back).map typedEntry →
      (∀ f kc' b, front = f ++ kc' :: b →
        (((p.mgr.IntoPath path).IntoPath [kc'.1]).NewInput kc'.2
          (tr ++ f.map (typedCall (p.mgr.IntoPath path).path))).1.2 = none) →
      (((p.mgr.IntoPath path).IntoPath [kc.1]).NewInput kc.2
        (tr ++ front.map (typedCall (p.mgr.IntoPath path).path))).1.2 = some e →
      FieldInputMap dec rng p path tr =
        ((none, some (ErrorfW ("input " ++ kc.1 ++ ": ") e)),
          tr ++ (front ++ [kc]).map (typedCall (p.mgr.IntoPath path).path))) := by
  refine ⟨rfl, ?_, ?_, ?_, ?_, ?_, ?_, ?_, ?_⟩
  · intro hfield
    simp only [FieldInput, hfield, inputConfFromAny, Manager.NewInput]
    generalize (p.mgr.IntoPath path).factory tr (p.mgr.IntoPath path).path c = r
    rcases r with ⟨iproc, _ | e⟩ <;> rfl
  · intro cs hfield
    simp [FieldInputList, hfield, decodeLoop_typed]
  · intro k rest ins
    rw [mapLoop]
    simp only [inputConfFromAny, Manager.NewInput]
    generalize ((p.mgr.IntoPath path).IntoPath [k]).factory tr
      ((p.mgr.IntoPath path).IntoPath [k]).path c = r
    rcases r with ⟨iproc, _ | e⟩ <;> rfl
  · intro dec' rng kvs hfield htyped
    have hord : ∀ e ∈ rng.order kvs, ∃ c', e.2 = AnyVal.inputConfig c' :=
      fun e he => htyped e ((rng.perm kvs).mem_iff.1 he)
    simp only [FieldInputMap, hfield]
    rw [mapLoop_typed dec dec' (p.mgr.IntoPath path) (rng.order kvs) hord]
  · intro cs hfield hnew
    exact FieldInputList_typed_ok dec p path tr cs hfield hnew
  · intro cs i c' e hfield hi hfail hleast
    exact FieldInputList_typed_error dec p path tr cs i c' e hfield hi hfail hleast
  · intro rng kvs ord hfield hord hkeys hnew
    exact FieldInputMap_typed_ok dec rng p path tr kvs ord hfield hord hkeys hnew
  · intro rng kvs front kc back e hfield hord hfront hfail
    exact FieldInputMap_typed_error dec rng p path tr kvs front kc back e hfield hord hfront hfail

/-- Witness of C6: the typed configuration `9` at `typed` of the sample tree
through the scalar accessor; the sequence of the typed configurations `8` and
`9` through the list accessor, which asks the managers narrowed to `0` and to
`1`; the typed configurations `8`, `7`, `9` with a factory failing on `7`,
where the list accessor stops at index 1; and the mapping of `a` to `8` and `b`
to `9` through the map accessor, visited `b` then `a`. -/
theorem typed_config_bypasses_decoding_witness :
    (FieldInput sampleDecode sampleConfig ["typed"] [] =
      match (sampleConfig.mgr.IntoPath ["typed"]).NewInput 9 [] with
      | ((_, some e), tr2) => ((none, some e), tr2)
      | ((iproc, none), tr2) => ((some ⟨iproc⟩, none), tr2)) ∧
    (∃ ins, FieldInputList sampleDecode typedListConfig ["in"] [] =
        ((some ins, none),
          [] ++ listInputEvents (typedListConfig.mgr.IntoPath ["in"]).path 0 [8, 9]) ∧
      ins.length = [8, 9].length ∧
      ∀ j c', [8, 9][j]? = some c' → ins[j]? = some (some (OwnedInput.mk
        (((typedListConfig.mgr.IntoPath ["in"]).IntoPath [Itoa j]).NewInput c'
          ([] ++ listInputEvents (typedListConfig.mgr.IntoPath ["in"]).path 0
            ([8, 9].take j))).1.1))) ∧
    (FieldInputList sampleDecode typedFailingListConfig ["in"] [] =
      ((none, some (ErrorfW ("input " ++ Itoa 1 ++ ": ") (GoError.plain "boom"))),
        [] ++ listInputEvents (typedFailingListConfig.mgr.IntoPath ["in"]).path 0
          ([8, 7, 9].take (1 + 1)))) ∧
    (∃ ins, FieldInputMap sampleDecode reversedRange typedMapConfig ["m"] [] =
        ((some ins, none),
          [] ++ [("b", 9), ("a", 8)].map (typedCall (typedMapConfig.mgr.IntoPath ["m"]).path)) ∧
      (∀ k, k ∈ ins.map Prod.fst ↔ k ∈ [("b", 9), ("a", 8)].map Prod.fst) ∧
      ∀ front kc back, [("b", 9), ("a", 8)] = front ++ kc :: back →
        mapGet ins kc.1 = some (OwnedInput.mk
          (((typedMapConfig.mgr.IntoPath ["m"]).IntoPath [kc.1]).NewInput kc.2
            ([] ++ front.map (typedCall (typedMapConfig.mgr.IntoPath ["m"]).path))).1.1)) :=
  ⟨(typed_config_bypasses_decoding sampleDecode sampleConfig ["typed"] [] 9).2.1 rfl,
   (typed_config_bypasses_decoding sampleDecode typedListConfig ["in"] [] 0).2.2.2.2.2.1
      [8, 9] rfl (fun _ _ _ => rfl),
   (typed_config_bypasses_decoding sampleDecode typedFailingListConfig ["in"] [] 0).2.2.2.2.2.2.1
      [8, 7, 9] 1 7 (GoError.plain "boom") rfl rfl rfl
      (by
        intro j c'' hj hc
        obtain rfl : j = 0 := by omega
        simp only [List.getElem?_cons_zero, Option.some.injEq] at hc
        subst hc
        rfl),
   (typed_config_bypasses_decoding sampleDecode typedMapConfig ["m"] [] 0).2.2.2.2.2.2.2.1
      reversedRange [("a", .inputConfig 8), ("b", .inputConfig 9)] [("b", 9), ("a", 8)]
      rfl rfl (by decide) (fun _ _ _ _ => rfl)⟩

end TypedAccessors

end Benthos
